import Mathlib

/-!
Verification of the ce constexpr-vector library (cvector.hpp, dvector.hpp,
P0848.hpp) against its natural-language specification.

Modelling conventions
* A storage cell (the P0848 storage union wrapping one T) is modelled as an
  Option T: none means the cell was never constructed, or was destroyed
  (destroy_at); some v means the cell holds a live object whose value is v.
  Reading the .t member of a non-live cell is undefined behaviour in the
  source; in the model such a read yields none.
* Operations guarded by an assert in the source return Except Unit; the
  value .error () means the assertion fired.  Operations with no assert in
  the source are plain functions: they cannot signal a violation.
* cvector_impl has inline storage (storage_type storage[N]), so it is a pure
  value.  dvector owns a heap allocation, so dvector operations are modelled
  over an explicit heap: a list of allocated blocks, where a block is a list
  of cells.  The storage_ pointer is none for nullptr or some blockId.
  Freed blocks are never reused and never read again (new blocks are always
  fresh), which is all the claims need.
* Machine int sizes and indices are modelled as Nat where the source keeps
  them non-negative (size_, capacity_ are only ever assigned non-negative
  values on defined executions); user-supplied indices to operator[] are
  modelled as Int so that the 0 <= i half of the source assertion is real.
-/

namespace ce

variable {T : Type}

/-- Writes cells [lo, lo+cnt) of a cell list, cell i receiving f i.  This is
the common shape of the element-wise for loops of the source
(for (i = lo; i < lo + cnt; ++i) storage[i] = ...). -/
def setRange (f : Nat → Option T) : List (Option T) → Nat → Nat → List (Option T)
  | s, _, 0 => s
  | s, lo, cnt + 1 => setRange f (s.set lo (f lo)) (lo + 1) cnt

/-- One element-lifetime action performed on a cell of the target of an
assignment, recorded by index: an element assignment over a live cell, a
construct_at into a non-live cell, or a destroy_at of a live cell. -/
inductive CellOp where
  | assign : Nat → CellOp
  | construct : Nat → CellOp
  | destroy : Nat → CellOp
deriving DecidableEq, Repr

/-- Model of cvector_impl<T, N> (cvector.hpp:227-416): a fixed array of N
storage cells plus the live count n.  The live cells are intended to be the
first n cells. -/
structure cvector_impl (T : Type) (N : Nat) where
  storage : List (Option T)
  n : Nat
deriving DecidableEq

variable {N : Nat}

/-- Reads cell i of a cvector_impl (none when i is outside the array or the
cell is not live). -/
def cvector_impl.cell (v : cvector_impl T N) (i : Nat) : Option T :=
  v.storage.getD i none

/-- Model of a default-initialized cvector_impl: storage[N] = \x7b\x7d (no cell
live) and n = 0 (cvector.hpp:234-235). -/
def cvDefault : cvector_impl T N :=
  ⟨List.replicate N none, 0⟩

/-- Well-formedness of a cvector_impl state: the array has length N, the live
count is bounded by N, and the first n cells are live. -/
@[reducible] def cvWF (v : cvector_impl T N) : Prop :=
  v.storage.length = N ∧ v.n ≤ N ∧ ∀ i, i < v.n → (v.cell i).isSome

/-- Observation of the live prefix of a cvector_impl. -/
def cvElems (v : cvector_impl T N) : List (Option T) :=
  (List.range v.n).map v.cell

/-- Model of cvector_impl::resize (cvector.hpp:247-265): assert(0 <= i <= N);
destroy cells [i, n) when shrinking; default-construct cells [n, i) when
growing (requires a default-constructible element type, modelled by the
Inhabited instance); set n = i. -/
def cvResize [Inhabited T] (v : cvector_impl T N) (i : Nat) : Except Unit (cvector_impl T N) :=
  if i ≤ N then
    .ok ⟨setRange (fun _ => some default)
          (setRange (fun _ => none) v.storage i (v.n - i)) v.n (i - v.n), i⟩
  else .error ()

/-- Model of cvector_impl::clear (cvector.hpp:267-269): resize(0). -/
def cvClear [Inhabited T] (v : cvector_impl T N) : Except Unit (cvector_impl T N) :=
  cvResize v 0

/-- Model of cvector_impl::operator[] (cvector.hpp:272-278): assert
(0 <= i && i < n), then read storage[i].t. -/
def cvIdx (v : cvector_impl T N) (i : Int) : Except Unit (Option T) :=
  if 0 ≤ i ∧ i < (v.n : Int) then .ok (v.cell i.toNat) else .error ()

/-- Model of the reference write a[i] = t through cvector_impl::operator[]
(cvector.hpp:276-278): the index assertion, then a store to cell i. -/
def cvSet (v : cvector_impl T N) (i : Int) (t : T) : Except Unit (cvector_impl T N) :=
  if 0 ≤ i ∧ i < (v.n : Int) then .ok ⟨v.storage.set i.toNat (some t), v.n⟩ else .error ()

/-- Model of cvector_impl::front (cvector.hpp:280-281): returns storage[0].t
with no assertion whatsoever. -/
def cvFront (v : cvector_impl T N) : Option T :=
  v.cell 0

/-- Model of cvector_impl::back (cvector.hpp:283-284): returns storage[n].t
(sic: index n, not n - 1) with no assertion whatsoever. -/
def cvBack (v : cvector_impl T N) : Option T :=
  v.cell v.n

/-- Model of cvector_impl::push_back (cvector.hpp:292-298, and emplace_back,
cvector.hpp:287-290, whose cell effect is identical once the element value is
built): assert(n < N), construct the element into cell n, increment n, and
return a reference to the new element (modelled by returning its value). -/
def cvPushBack (v : cvector_impl T N) (t : T) : Except Unit (cvector_impl T N × T) :=
  if v.n < N then .ok (⟨v.storage.set v.n (some t), v.n + 1⟩, t) else .error ()

/-- Model of cvector_impl::pop_back (cvector.hpp:300-302): assert(n > 0),
then return std::move(storage[--n].t).  No destroy is performed: the vacated
cell still holds its (moved-from) live object, so the storage list is
unchanged. -/
def cvPopBack (v : cvector_impl T N) : Except Unit (Option T × cvector_impl T N) :=
  if 0 < v.n then .ok (v.cell (v.n - 1), ⟨v.storage, v.n - 1⟩) else .error ()

/-- Model of cvector_impl::on_copy (cvector.hpp:389-401), the index-wise
reconciliation used by the copy-assignment operator and the copy-constructor
hook: assign cells [0, min(n, b.n)) from b, copy-construct cells
[min(n, b.n), b.n) from b, destroy cells [b.n, n), set n = b.n.  The second
component records the per-cell lifetime actions in order. -/
def cvOnCopy (a b : cvector_impl T N) : cvector_impl T N × List CellOp :=
  let m := min a.n b.n
  let s1 := setRange (fun i => b.cell i) a.storage 0 m
  let s2 := setRange (fun i => b.cell i) s1 m (b.n - m)
  let s3 := setRange (fun _ => none) s2 b.n (a.n - b.n)
  (⟨s3, b.n⟩,
    (List.range m).map .assign
      ++ (List.range' m (b.n - m)).map .construct
      ++ (List.range' b.n (a.n - b.n)).map .destroy)

/-- Model of cvector_impl::on_move (cvector.hpp:403-415): the same
reconciliation with moved-from sources, after which the source keeps its
cells (now holding moved-from objects) and its size is exchanged to 0.
Returns (new target state, new source state). -/
def cvOnMove (a b : cvector_impl T N) : cvector_impl T N × cvector_impl T N :=
  let m := min a.n b.n
  let s1 := setRange (fun i => b.cell i) a.storage 0 m
  let s2 := setRange (fun i => b.cell i) s1 m (b.n - m)
  let s3 := setRange (fun _ => none) s2 b.n (a.n - b.n)
  (⟨s3, b.n⟩, ⟨b.storage, 0⟩)

/-- Model of cvector copy assignment for element types that are not
trivially copy assignable (cvector.hpp:456-459): forwards to on_copy. -/
def cvCopyAssign (a b : cvector_impl T N) : cvector_impl T N :=
  (cvOnCopy a b).1

/-- Model of cvector copy assignment for trivially copy assignable element
types (cvector.hpp:455, = default): memberwise copy of the whole storage
array and of n; the target becomes an exact copy of the source. -/
def cvCopyAssignTriv (_a b : cvector_impl T N) : cvector_impl T N :=
  b

/-- Model of the cvector copy constructor for element types that are not
trivially copy constructible (P0848::copy, cvector.hpp:195-204): the new
object default-initializes its base (all cells non-live, n = 0) and then
runs on_copy from the source. -/
def cvCopyCtor (b : cvector_impl T N) : cvector_impl T N :=
  (cvOnCopy cvDefault b).1

/-- Model of the cvector move constructor for element types that are not
trivially move constructible (P0848::move, cvector.hpp:210-219): the new
object default-initializes its base and then runs on_move from the source.
Returns (new object, moved-from source). -/
def cvMoveCtor (b : cvector_impl T N) : cvector_impl T N × cvector_impl T N :=
  cvOnMove cvDefault b

/-- Model of the cvector move constructor for trivially move constructible
element types (cvector.hpp:451, = default, selecting the defaulted chain
P0848::move/copy/dtor): a trivial memberwise copy.  The source is left
completely unchanged; in particular its size is not reset. -/
def cvMoveCtorTriv (b : cvector_impl T N) : cvector_impl T N × cvector_impl T N :=
  (b, b)

/-- Model of cvector move assignment for element types that are not
trivially move assignable (cvector.hpp:464-467): forwards to on_move. -/
def cvMoveAssign (a b : cvector_impl T N) : cvector_impl T N × cvector_impl T N :=
  cvOnMove a b

/-- Model of cvector move assignment for trivially move assignable element
types (cvector.hpp:463, = default): memberwise copy; the source is left
unchanged. -/
def cvMoveAssignTriv (_a b : cvector_impl T N) : cvector_impl T N × cvector_impl T N :=
  (b, b)

/-- Helper for the variadic cvector constructor: emplace_back each argument
in order (cvector.hpp:434-437). -/
def cvOfListAux : cvector_impl T N → List T → Except Unit (cvector_impl T N)
  | v, [] => .ok v
  | v, t :: ts =>
    match cvPushBack v t with
    | .error e => .error e
    | .ok (v', _) => cvOfListAux v' ts

/-- Model of the only non-default cvector constructor (cvector.hpp:434-437),
also reached by the in_place and in_place_type forms (cvector.hpp:439-447):
default-initialize, then emplace_back each argument of the list in order.
There is no constructor of cvector taking an element count. -/
def cvOfList (ts : List T) : Except Unit (cvector_impl T N) :=
  cvOfListAux cvDefault ts

/-- Heap for the dvector model: the list of blocks ever allocated with
new storage_type[n]; a block is a list of cells.  Block ids are list
indices; allocation always appends a fresh block, and delete [] is a no-op
on the model heap (freed blocks are simply never referenced again). -/
abbrev Heap (T : Type) := List (List (Option T))

/-- Model of dvector::allocate (dvector.hpp:294-296): nullptr for n == 0,
otherwise a fresh uninitialized block of n cells. -/
def allocate (n : Nat) (h : Heap T) : Option Nat × Heap T :=
  if n = 0 then (none, h) else (some h.length, h ++ [List.replicate n none])

/-- Reads the block a (possibly null) storage pointer refers to. -/
def blockOf (h : Heap T) (p : Option Nat) : List (Option T) :=
  match p with
  | none => []
  | some bid => h.getD bid []

/-- Writes cell i of the block p refers to (no-op on a null pointer, which
only happens on executions that are undefined in the source). -/
def hWrite (h : Heap T) (p : Option Nat) (i : Nat) (x : Option T) : Heap T :=
  match p with
  | none => h
  | some bid => h.set bid ((h.getD bid []).set i x)

/-- Heap-level element loop: writes cells [lo, lo+cnt) of block p, cell i
receiving f h i where h is the heap at the time of that iteration (the
source loops read and write the heap interleaved). -/
def hSetRange (p : Option Nat) (f : Heap T → Nat → Option T) : Heap T → Nat → Nat → Heap T
  | h, _, 0 => h
  | h, lo, cnt + 1 => hSetRange p f (hWrite h p lo (f h lo)) (lo + 1) cnt

/-- Model of dvector<T> (dvector.hpp:46-54): capacity_, size_, and the
storage_ pointer (none models nullptr). -/
structure dvector (T : Type) where
  capacity_ : Nat
  size_ : Nat
  storage_ : Option Nat
deriving DecidableEq

/-- Model of the default dvector constructor (dvector.hpp:63 together with
the member initializers of dvector.hpp:52-54): capacity 0, size 0,
nullptr. -/
def dvDefault : dvector T :=
  ⟨0, 0, none⟩

/-- Reads element i of a dvector from the heap (none when the cell is not
live, the index is out of the block, or storage_ is null). -/
def readCell (h : Heap T) (v : dvector T) (i : Nat) : Option T :=
  (blockOf h v.storage_).getD i none

/-- Observation of the live prefix of a dvector. -/
def dvElems (h : Heap T) (v : dvector T) : List (Option T) :=
  (List.range v.size_).map (readCell h v)

/-- Well-formedness of a dvector state: size_ <= capacity_, the storage
pointer is null exactly when capacity_ is 0, and an allocated block exists in
the heap with exactly capacity_ cells. -/
@[reducible] def dvWF (h : Heap T) (v : dvector T) : Prop :=
  v.size_ ≤ v.capacity_ ∧
  (v.storage_ = none ↔ v.capacity_ = 0) ∧
  match v.storage_ with
  | none => True
  | some bid => bid < h.length ∧ (h.getD bid []).length = v.capacity_

/-- Model of the sized dvector constructor (dvector.hpp:65-75):
assert(n >= 0) (automatic for Nat) and assert default-constructibility
(modelled by the Inhabited instance); capacity_ = n, size_ = n, storage_ =
allocate(n), then default-construct cells [0, n). -/
def dvMkSized [Inhabited T] (n : Nat) (h : Heap T) : dvector T × Heap T :=
  let (p, h1) := allocate n h
  (⟨n, n, p⟩, hSetRange p (fun _ _ => some default) h1 0 n)

/-- Model of dvector::reserve (dvector.hpp:207-216): when capacity_ < n,
set capacity_ = n, allocate a fresh block, move-construct cells [0, size_)
from the old block into it in order, and release the old block; otherwise do
nothing at all. -/
def dvReserve (v : dvector T) (n : Nat) (h : Heap T) : dvector T × Heap T :=
  if v.capacity_ < n then
    let (p, h1) := allocate n h
    (⟨n, v.size_, p⟩, hSetRange p (fun hh i => readCell hh v i) h1 0 v.size_)
  else (v, h)

/-- Model of dvector::shrink_to_fit (dvector.hpp:222-231): when
size_ < capacity_, set capacity_ = size_, allocate a block of exactly size_
cells (nullptr when size_ is 0), move-construct the live cells into it, and
release the old block. -/
def dvShrinkToFit (v : dvector T) (h : Heap T) : dvector T × Heap T :=
  if v.size_ < v.capacity_ then
    let (p, h1) := allocate v.size_ h
    (⟨v.size_, v.size_, p⟩, hSetRange p (fun hh i => readCell hh v i) h1 0 v.size_)
  else (v, h)

/-- Model of dvector::push_back and dvector::emplace_back
(dvector.hpp:238-259; the cell effect of the three overloads is identical
once the element value is built): when size_ == capacity_, first reserve
max(2 * capacity_, 1); then construct the element into cell size_ and
increment size_. -/
def dvPushBack (v : dvector T) (t : T) (h : Heap T) : dvector T × Heap T :=
  let (v1, h1) :=
    if v.size_ = v.capacity_ then dvReserve v (max (2 * v.capacity_) 1) h else (v, h)
  (⟨v1.capacity_, v1.size_ + 1, v1.storage_⟩, hWrite h1 v1.storage_ v1.size_ (some t))

/-- Model of dvector::pop_back (dvector.hpp:261-263): assert(size_ > 0),
then return std::move(storage_[--size_].t).  No destroy is performed and the
heap is unchanged: the vacated cell still holds its (moved-from) live
object. -/
def dvPopBack (v : dvector T) (h : Heap T) : Except Unit (Option T × dvector T) :=
  if 0 < v.size_ then
    .ok (readCell h v (v.size_ - 1), ⟨v.capacity_, v.size_ - 1, v.storage_⟩)
  else .error ()

/-- Model of dvector::resize (dvector.hpp:265-282): reserve(n) when
capacity_ < n; destroy cells [n, size_) when shrinking; default-construct
cells [size_, n) when growing; set size_ = n. -/
def dvResize [Inhabited T] (v : dvector T) (n : Nat) (h : Heap T) : dvector T × Heap T :=
  let (v1, h1) := if v.capacity_ < n then dvReserve v n h else (v, h)
  let h2 := hSetRange v1.storage_ (fun _ _ => none) h1 n (v1.size_ - n)
  let h3 := hSetRange v1.storage_ (fun _ _ => some default) h2 v1.size_ (n - v1.size_)
  (⟨v1.capacity_, n, v1.storage_⟩, h3)

/-- Model of dvector::clear (dvector.hpp:284-291): destroy cells
[0, size_) and set size_ = 0 (capacity and storage untouched). -/
def dvClear (v : dvector T) (h : Heap T) : dvector T × Heap T :=
  (⟨v.capacity_, 0, v.storage_⟩, hSetRange v.storage_ (fun _ _ => none) h 0 v.size_)

/-- Model of the dvector destructor (dvector.hpp:57-61): clear(), then
delete [] storage_ (the release is a no-op on the model heap).  The result
is the final heap; the object itself ceases to exist. -/
def dvDtor (v : dvector T) (h : Heap T) : Heap T :=
  (dvClear v h).2

/-- Model of the dvector copy constructor (dvector.hpp:90-99): capacity_ and
size_ are taken from the source, a fresh block of capacity_ cells is
allocated, and cells [0, size_) are copy-constructed from the source. -/
def dvCopyCtor (b : dvector T) (h : Heap T) : dvector T × Heap T :=
  let (p, h1) := allocate b.capacity_ h
  (⟨b.capacity_, b.size_, p⟩, hSetRange p (fun hh i => readCell hh b i) h1 0 b.size_)

/-- Model of the dvector move constructor (dvector.hpp:101-106): the new
object exchanges all three members out of the source, leaving the source
with capacity 0, size 0 and nullptr.  Returns (new object, source). -/
def dvMoveCtor (b : dvector T) : dvector T × dvector T :=
  (⟨b.capacity_, b.size_, b.storage_⟩, ⟨0, 0, none⟩)

/-- Model of dvector copy assignment (dvector.hpp:108-131): when
capacity_ < b.capacity_, first clear, release the old block and allocate a
fresh block of b.capacity_ cells (so size_ is 0 entering the reconciliation);
then assign cells [0, min(size_, b.size_)) from b, copy-construct cells
[min(size_, b.size_), b.size_) from b, destroy cells [b.size_, size_), and
set size_ = b.size_.  The last component records the reconciliation's
per-cell lifetime actions in order. -/
def dvCopyAssign (a b : dvector T) (h : Heap T) : dvector T × Heap T × List CellOp :=
  let (a1, h1) :=
    if a.capacity_ < b.capacity_ then
      let (a2, h2) := dvClear a h
      let (p, h3) := allocate b.capacity_ h2
      (⟨b.capacity_, a2.size_, p⟩, h3)
    else (a, h)
  let m := min a1.size_ b.size_
  let h4 := hSetRange a1.storage_ (fun hh i => readCell hh b i) h1 0 m
  let h5 := hSetRange a1.storage_ (fun hh i => readCell hh b i) h4 m (b.size_ - m)
  let h6 := hSetRange a1.storage_ (fun _ _ => none) h5 b.size_ (a1.size_ - b.size_)
  (⟨a1.capacity_, b.size_, a1.storage_⟩, h6,
    (List.range m).map .assign
      ++ (List.range' m (b.size_ - m)).map .construct
      ++ (List.range' b.size_ (a1.size_ - b.size_)).map .destroy)

/-- Model of dvector move assignment (dvector.hpp:133-145): clear and
release the target's own storage, then exchange all three members out of the
source, leaving the source with capacity 0, size 0 and nullptr.  Returns
(new target, source, heap). -/
def dvMoveAssign (a b : dvector T) (h : Heap T) : dvector T × dvector T × Heap T :=
  let (_, h1) := dvClear a h
  (⟨b.capacity_, b.size_, b.storage_⟩, ⟨0, 0, none⟩, h1)

/-- Model of dvector::operator[] (dvector.hpp:148-154): assert
(0 <= i && i < size_), then read storage_[i].t. -/
def dvIdx (v : dvector T) (h : Heap T) (i : Int) : Except Unit (Option T) :=
  if 0 ≤ i ∧ i < (v.size_ : Int) then .ok (readCell h v i.toNat) else .error ()

/-- Model of the reference write v[i] = t through dvector::operator[]
(dvector.hpp:152-154): the index assertion, then a store to cell i. -/
def dvSet (v : dvector T) (h : Heap T) (i : Int) (t : T) : Except Unit (Heap T) :=
  if 0 ≤ i ∧ i < (v.size_ : Int) then .ok (hWrite h v.storage_ i.toNat (some t)) else .error ()

/-- Model of dvector::front (dvector.hpp:156-162): assert(size_ > 0), then
read storage_[0].t. -/
def dvFront (v : dvector T) (h : Heap T) : Except Unit (Option T) :=
  if 0 < v.size_ then .ok (readCell h v 0) else .error ()

/-- Model of dvector::back (dvector.hpp:164-170): assert(size_ > 0), then
read storage_[size_ - 1].t. -/
def dvBack (v : dvector T) (h : Heap T) : Except Unit (Option T) :=
  if 0 < v.size_ then .ok (readCell h v (v.size_ - 1)) else .error ()

/-- Helper for the in_place dvector constructor: emplace_back each argument
in order (dvector.hpp:77-82). -/
def dvOfListAux : dvector T → List T → Heap T → dvector T × Heap T
  | v, [], h => (v, h)
  | v, t :: ts, h =>
    let (v1, h1) := dvPushBack v t h
    dvOfListAux v1 ts h1

/-- Model of the in_place dvector constructor (dvector.hpp:77-88, also
reached by the in_place_type form): default-initialize, reserve the argument
count, then emplace_back each argument in order. -/
def dvOfList (ts : List T) (h : Heap T) : dvector T × Heap T :=
  let (v1, h1) := dvReserve dvDefault ts.length h
  dvOfListAux v1 ts h1

/-- One mutation step applied to a dvector, drawn from the mutations named
by the deep-copy claim: push_back, pop_back, resize, or an element write
through operator[].  A step whose source assertion fires leaves the state
unchanged (the source would abort there). -/
inductive dvMut (T : Type) where
  | push : T → dvMut T
  | pop : dvMut T
  | resize : Nat → dvMut T
  | write : Int → T → dvMut T

/-- Applies one mutation step. -/
def dvApplyMut [Inhabited T] : dvMut T → dvector T → Heap T → dvector T × Heap T
  | .push t, v, h => dvPushBack v t h
  | .pop, v, h =>
    match dvPopBack v h with
    | .ok (_, v') => (v', h)
    | .error _ => (v, h)
  | .resize n, v, h => dvResize v n h
  | .write i t, v, h =>
    match dvSet v h i t with
    | .ok h' => (v, h')
    | .error _ => (v, h)

/-- Applies a list of mutation steps in order. -/
def dvApplyMuts [Inhabited T] : List (dvMut T) → dvector T → Heap T → dvector T × Heap T
  | [], v, h => (v, h)
  | m :: ms, v, h =>
    let (v1, h1) := dvApplyMut m v h
    dvApplyMuts ms v1 h1

/-! Concrete example states used to exercise the theorems below, drawn from
the scenarios of the spec (a three-element target, a two-element source, and
a one-element dynamic sequence). -/

/-- Example fixed sequence of capacity 3 holding 3, 4, 5. -/
@[reducible] def exCvA : cvector_impl Int 3 := ⟨[some 3, some 4, some 5], 3⟩

/-- Example fixed sequence of capacity 3 holding 1, 2. -/
@[reducible] def exCvB : cvector_impl Int 3 := ⟨[some 1, some 2, none], 2⟩

/-- Example dynamic sequence (block 0) holding 3, 4, 5. -/
@[reducible] def exDvA : dvector Int := ⟨3, 3, some 0⟩

/-- Example dynamic sequence (block 1) holding 1, 2. -/
@[reducible] def exDvB : dvector Int := ⟨2, 2, some 1⟩

/-- Heap backing exDvA and exDvB. -/
@[reducible] def exHeap : Heap Int := [[some 3, some 4, some 5], [some 1, some 2]]

/-- Example one-element dynamic sequence (block 0) holding 5. -/
@[reducible] def exDvSmall : dvector Int := ⟨1, 1, some 0⟩

/-- Heap backing exDvSmall. -/
@[reducible] def exHeapSmall : Heap Int := [[some 5]]

/-- Example one-element fixed sequence of capacity 3 holding 1. -/
@[reducible] def exCv1 : cvector_impl Int 3 := ⟨[some 1, none, none], 1⟩

/-! Basic lemmas about cell lists and setRange. -/

theorem getD_set_ne (s : List (Option T)) (i j : Nat) (x : Option T) (hij : i ≠ j) :
    (s.set i x).getD j none = s.getD j none := by
  simp [List.getD_eq_getElem?_getD, List.getElem?_set_ne hij]

theorem getD_set_self (s : List (Option T)) (i : Nat) (x : Option T) (hi : i < s.length) :
    (s.set i x).getD i none = x := by
  simp [List.getD_eq_getElem?_getD, List.getElem?_set_self, hi]

theorem setRange_length (f : Nat → Option T) :
    ∀ (cnt : Nat) (s : List (Option T)) (lo : Nat), (setRange f s lo cnt).length = s.length
  | 0, _, _ => rfl
  | cnt + 1, s, lo => by
    rw [setRange, setRange_length f cnt, List.length_set]

theorem setRange_getD_lt (f : Nat → Option T) :
    ∀ (cnt : Nat) (s : List (Option T)) (lo j : Nat), j < lo →
      (setRange f s lo cnt).getD j none = s.getD j none
  | 0, _, _, _, _ => rfl
  | cnt + 1, s, lo, j, hj => by
    rw [setRange, setRange_getD_lt f cnt _ _ _ (Nat.lt_succ_of_lt hj)]
    exact getD_set_ne s lo j (f lo) (Nat.ne_of_gt hj)

theorem setRange_getD_ge (f : Nat → Option T) :
    ∀ (cnt : Nat) (s : List (Option T)) (lo j : Nat), lo + cnt ≤ j →
      (setRange f s lo cnt).getD j none = s.getD j none
  | 0, _, _, _, _ => rfl
  | cnt + 1, s, lo, j, hj => by
    rw [setRange, setRange_getD_ge f cnt _ _ _ (by omega)]
    exact getD_set_ne s lo j (f lo) (by omega)

theorem setRange_getD_mem (f : Nat → Option T) :
    ∀ (cnt : Nat) (s : List (Option T)) (lo j : Nat), lo ≤ j → j < lo + cnt →
      j < s.length → (setRange f s lo cnt).getD j none = f j
  | 0, _, _, j, h1, h2, _ => absurd h2 (by omega)
  | cnt + 1, s, lo, j, h1, h2, h3 => by
    rw [setRange]
    rcases Nat.eq_or_lt_of_le h1 with heq | hlt
    · subst heq
      rw [setRange_getD_lt f cnt _ _ _ (Nat.lt_succ_self _)]
      exact getD_set_self s lo (f lo) h3
    · exact setRange_getD_mem f cnt _ _ _ hlt (by omega)
        (by rw [List.length_set]; exact h3)

/-! Claim C2: back() should return the last live element, storage[size-1].
The dynamic sequence does; the fixed sequence's back() reads storage[n], one
past the live range. -/

/-- C2: back() is specified (spec sections 4.1 and 9, and the repository's own
back() unit test) to return the last live element, the one at index size-1.
dvector::back does exactly that, shown here on the concrete two-element state
with values 5, 7.  cvector_impl::back instead reads storage[n]: on the
two-element cvector of capacity 3 holding 1, 2 (reached by the in_place
constructor) it yields the non-live cell 2 (an undefined read, modelled as
none) although the last live element, returned by operator[] at index 1, is
2.  This contradicts the claim at a concrete input. -/
theorem cvector_back_reads_past_live :
    cvOfList (N := 3) [(1 : Int), 2] = .ok ⟨[some 1, some 2, none], 2⟩ ∧
    cvBack (⟨[some 1, some 2, none], 2⟩ : cvector_impl Int 3) = none ∧
    cvIdx (⟨[some 1, some 2, none], 2⟩ : cvector_impl Int 3) 1 = .ok (some 2) ∧
    dvBack (⟨2, 2, some 0⟩ : dvector Int) [[some 5, some 7]] = .ok (some 7) :=
  ⟨rfl, rfl, rfl, rfl⟩

/-- C3: pop_back is specified to destroy cell size-1 after moving its value
out, so that the cell is no longer live.  Neither implementation ever calls
destroy in pop_back: both return std::move(storage[--size].t) and leave the
cell holding its (moved-from) live object.  On a one-element fixed sequence
holding 5, pop_back returns 5 and decrements the size, but cell 0 is still
live afterwards; the same holds for the dynamic sequence, whose heap block is
completely unchanged by the pop. -/
theorem pop_back_skips_destroy :
    cvOfList (N := 1) [(5 : Int)] = .ok ⟨[some 5], 1⟩ ∧
    cvPopBack (⟨[some 5], 1⟩ : cvector_impl Int 1) = .ok (some 5, ⟨[some 5], 0⟩) ∧
    (⟨[some 5], 0⟩ : cvector_impl Int 1).cell 0 = some 5 ∧
    dvPopBack (⟨1, 1, some 0⟩ : dvector Int) [[some 5]] = .ok (some 5, ⟨1, 0, some 0⟩) ∧
    readCell (T := Int) [[some 5]] ⟨1, 0, some 0⟩ 0 = some 5 :=
  ⟨rfl, rfl, rfl, rfl, rfl⟩

/-- C5: the sized construction form is specified (spec section 6 and the
repository's own basic_ctor, sized_ctor and read tests for cvector) to yield
size n with every element default-valued, for both sequence types.  The
dynamic sequence obeys: dvector(2) gives capacity 2, size 2, both cells
holding the default value.  The fixed sequence has no sized constructor at
all: the call cvector of int, 3 with the single argument 2 resolves to the
variadic element-list constructor and produces a one-element sequence holding
the value 2 - size 1, not size 2. -/
theorem cvector_sized_ctor_missing :
    dvMkSized (T := Int) 2 [] = (⟨2, 2, some 0⟩, [[some 0, some 0]]) ∧
    cvOfList (N := 3) [(2 : Int)] = .ok ⟨[some 2, none, none], 1⟩ ∧
    (⟨[some 2, none, none], 1⟩ : cvector_impl Int 3).n ≠ 2 := by
  refine ⟨rfl, rfl, ?_⟩
  decide

/-- C6: the spec (section 7) and the claim list out-of-bounds operator[],
push_back past the fixed capacity, and pop_back/front/back on an empty
sequence as assertion-checked.  The checks that exist are shown firing below:
operator[] in both sequence types, push_back and pop_back in both, and
front/back in the dynamic sequence.  But cvector_impl::front and
cvector_impl::back carry no assertion at all (contradicting the library's own
stated convention of asserting preconditions on the declaration line): called
on an empty fixed sequence they proceed and read a non-live cell (modelled as
none) instead of failing fast. -/
theorem cvector_front_back_unchecked :
    cvFront (cvDefault : cvector_impl Int 3) = none ∧
    cvBack (cvDefault : cvector_impl Int 3) = none ∧
    dvFront (dvDefault : dvector Int) [] = .error () ∧
    dvBack (dvDefault : dvector Int) [] = .error () ∧
    cvPopBack (cvDefault : cvector_impl Int 3) = .error () ∧
    dvPopBack (dvDefault : dvector Int) [] = .error () ∧
    cvIdx (cvDefault : cvector_impl Int 3) 0 = .error () ∧
    cvIdx (⟨[some 1, none, none], 1⟩ : cvector_impl Int 3) (-1) = .error () ∧
    dvIdx (dvDefault : dvector Int) [] 0 = .error () ∧
    cvPushBack (⟨[some 1, some 2, some 3], 3⟩ : cvector_impl Int 3) 9 = .error () :=
  ⟨rfl, rfl, rfl, rfl, rfl, rfl, rfl, rfl, rfl, rfl⟩

/-- C4 counterexample: the claim says that for every element type, move
construction leaves the moved-from source empty with size 0.  For a trivially
move constructible element type (say int) the cvector move constructor is the
defaulted, memberwise one (cvector.hpp:451 on the defaulted P0848 chain): the
source is left bitwise intact.  Moving from the three-element cvector of int
built by the in_place constructor leaves the source with size 3, not 0. -/
theorem trivial_move_keeps_source :
    cvOfList (N := 3) [(1 : Int), 2, 3] = .ok ⟨[some 1, some 2, some 3], 3⟩ ∧
    (cvMoveCtorTriv (⟨[some 1, some 2, some 3], 3⟩ : cvector_impl Int 3)).2.n = 3 ∧
    (cvMoveCtorTriv (⟨[some 1, some 2, some 3], 3⟩ : cvector_impl Int 3)).2.n ≠ 0 := by
  refine ⟨rfl, rfl, ?_⟩
  decide

/-- C4 amended: moving from the dynamic sequence (constructor or assignment)
always leaves the source valid and empty - size 0, capacity 0, null storage,
so the moved-from state holds no allocation and is well formed in any heap.
For the fixed sequence the source's size is reset to 0 exactly on the
non-trivial path, i.e. when the element type is not trivially move
constructible (resp. assignable), where the move runs on_move; on the
trivial path the defaulted memberwise move leaves the source unchanged. -/
theorem move_leaves_source_empty :
    (∀ (b : dvector T),
      (dvMoveCtor b).2.size_ = 0 ∧ (dvMoveCtor b).2.capacity_ = 0 ∧
        (dvMoveCtor b).2.storage_ = none) ∧
    (∀ (b : dvector T) (h : Heap T), dvWF h (dvMoveCtor b).2) ∧
    (∀ (a b : dvector T) (h : Heap T),
      (dvMoveAssign a b h).2.1.size_ = 0 ∧ (dvMoveAssign a b h).2.1.capacity_ = 0 ∧
        (dvMoveAssign a b h).2.1.storage_ = none) ∧
    (∀ (b : cvector_impl T N), (cvMoveCtor b).2.n = 0) ∧
    (∀ (a b : cvector_impl T N), (cvMoveAssign a b).2.n = 0) ∧
    (∀ (b : cvector_impl T N), (cvMoveCtorTriv b).2.n = b.n) ∧
    (∀ (a b : cvector_impl T N), (cvMoveAssignTriv a b).2.n = b.n) := by
  refine ⟨fun b => ⟨rfl, rfl, rfl⟩, fun b h => ⟨Nat.le_refl 0, ⟨fun _ => rfl, fun _ => rfl⟩, trivial⟩,
    fun a b h => ⟨rfl, rfl, rfl⟩, fun b => rfl, fun a b => rfl, fun b => rfl, fun a b => rfl⟩

/-! Basic lemmas about the heap primitives. -/

theorem hWrite_length (h : Heap T) (p : Option Nat) (i : Nat) (x : Option T) :
    (hWrite h p i x).length = h.length := by
  cases p with
  | none => rfl
  | some bid => exact List.length_set ..

theorem getD_heap_set_ne (h : Heap T) (bid q : Nat) (blk : List (Option T)) (hq : q ≠ bid) :
    (h.set bid blk).getD q [] = h.getD q [] := by
  simp [List.getD_eq_getElem?_getD, List.getElem?_set_ne (Ne.symm hq)]

theorem hWrite_getD_ne (h : Heap T) (bid q : Nat) (i : Nat) (x : Option T) (hq : q ≠ bid) :
    (hWrite h (some bid) i x).getD q [] = h.getD q [] :=
  getD_heap_set_ne h bid q _ hq

theorem hWrite_getD_self (h : Heap T) (bid : Nat) (i : Nat) (x : Option T) :
    (hWrite h (some bid) i x).getD bid [] = (h.getD bid []).set i x := by
  by_cases hb : bid < h.length
  · simp [hWrite, List.getD_eq_getElem?_getD, List.getElem?_set_self, hb]
  · have h1 : h.getD bid [] = [] := by
      simp [List.getD_eq_getElem?_getD, List.getElem?_eq_none (Nat.le_of_not_lt hb)]
    show (h.set bid ((h.getD bid []).set i x)).getD bid [] = (h.getD bid []).set i x
    rw [List.set_eq_of_length_le (Nat.le_of_not_lt hb), h1]
    rfl

theorem hSetRange_length (p : Option Nat) (f : Heap T → Nat → Option T) :
    ∀ (cnt : Nat) (h : Heap T) (lo : Nat), (hSetRange p f h lo cnt).length = h.length
  | 0, _, _ => rfl
  | cnt + 1, h, lo => by
    rw [hSetRange, hSetRange_length p f cnt, hWrite_length]

theorem hSetRange_none (f : Heap T → Nat → Option T) :
    ∀ (cnt : Nat) (h : Heap T) (lo : Nat), hSetRange none f h lo cnt = h
  | 0, _, _ => rfl
  | cnt + 1, h, lo => hSetRange_none f cnt h (lo + 1)

theorem hSetRange_getD_ne (f : Heap T → Nat → Option T) (bid q : Nat) (hq : q ≠ bid) :
    ∀ (cnt : Nat) (h : Heap T) (lo : Nat),
      (hSetRange (some bid) f h lo cnt).getD q [] = h.getD q []
  | 0, _, _ => rfl
  | cnt + 1, h, lo => by
    rw [hSetRange, hSetRange_getD_ne f bid q hq cnt, hWrite_getD_ne h bid q _ _ hq]

theorem hSetRange_getD_self (f : Heap T → Nat → Option T) (bid : Nat)
    (hf : ∀ (h : Heap T) (j : Nat) (x : Option T) (i : Nat),
      f (hWrite h (some bid) j x) i = f h i) :
    ∀ (cnt : Nat) (h : Heap T) (lo : Nat),
      (hSetRange (some bid) f h lo cnt).getD bid [] = setRange (f h) (h.getD bid []) lo cnt
  | 0, _, _ => rfl
  | cnt + 1, h, lo => by
    rw [hSetRange, hSetRange_getD_self f bid hf cnt _ _, hWrite_getD_self, setRange]
    have hfh : f (hWrite h (some bid) lo (f h lo)) = f h :=
      funext fun i => hf h lo (f h lo) i
    rw [hfh]

/-! Lemmas about readCell and heap modifications. -/

theorem readCell_congr (h h' : Heap T) (b : dvector T)
    (hb : blockOf h' b.storage_ = blockOf h b.storage_) (i : Nat) :
    readCell h' b i = readCell h b i := by
  unfold readCell
  rw [hb]

theorem blockOf_hWrite_ne (h : Heap T) (b : dvector T) (bid : Nat) (j : Nat) (x : Option T)
    (hb : b.storage_ ≠ some bid) :
    blockOf (hWrite h (some bid) j x) b.storage_ = blockOf h b.storage_ := by
  unfold blockOf
  cases hs : b.storage_ with
  | none => rfl
  | some q =>
    exact hWrite_getD_ne h bid q j x fun hq => hb (by rw [hs, hq])

theorem readCell_hWrite_ne (h : Heap T) (b : dvector T) (bid : Nat) (j : Nat) (x : Option T)
    (hb : b.storage_ ≠ some bid) (i : Nat) :
    readCell (hWrite h (some bid) j x) b i = readCell h b i :=
  readCell_congr _ _ _ (blockOf_hWrite_ne h b bid j x hb) i

theorem blockOf_hSetRange_ne (f : Heap T → Nat → Option T) (b : dvector T) (bid : Nat)
    (hb : b.storage_ ≠ some bid) (cnt : Nat) (h : Heap T) (lo : Nat) :
    blockOf (hSetRange (some bid) f h lo cnt) b.storage_ = blockOf h b.storage_ := by
  unfold blockOf
  cases hs : b.storage_ with
  | none => rfl
  | some q =>
    exact hSetRange_getD_ne f bid q (fun hq => hb (by rw [hs, hq])) cnt h lo

theorem getD_append_blocks (h bs : Heap T) (q : Nat) (hq : q < h.length) :
    (h ++ bs).getD q [] = h.getD q [] := by
  simp [List.getD_eq_getElem?_getD, List.getElem?_append_left hq]

theorem getD_append_fresh (h : Heap T) (blk : List (Option T)) :
    (h ++ [blk]).getD h.length [] = blk := by
  have hle : h.length ≤ h.length := Nat.le_refl _
  simp [List.getD_eq_getElem?_getD, List.getElem?_append_right hle]

theorem blockOf_append (h bs : Heap T) (b : dvector T)
    (hb : ∀ bid, b.storage_ = some bid → bid < h.length) :
    blockOf (h ++ bs) b.storage_ = blockOf h b.storage_ := by
  unfold blockOf
  cases hs : b.storage_ with
  | none => rfl
  | some q => exact getD_append_blocks h bs q (hb q hs)

/-! Shape lemmas for allocate. -/

theorem allocate_pos (n : Nat) (h : Heap T) (hn : 0 < n) :
    allocate n h = (some h.length, h ++ [List.replicate n none]) := by
  unfold allocate
  rw [if_neg (Nat.pos_iff_ne_zero.mp hn)]

theorem allocate_zero (h : Heap T) : allocate 0 h = (none, h) := rfl

/-! Shape and specification lemmas for the dvector operations. -/

theorem dvWF_block (h : Heap T) (v : dvector T) (hwf : dvWF h v) :
    ∀ bid, v.storage_ = some bid → bid < h.length ∧ (h.getD bid []).length = v.capacity_ := by
  intro bid hbid
  have h3 := hwf.2.2
  rw [hbid] at h3
  exact h3

theorem dvWF_not_fresh (h : Heap T) (v : dvector T) (hwf : dvWF h v) :
    v.storage_ ≠ some h.length := by
  intro heq
  exact absurd (dvWF_block h v hwf h.length heq).1 (Nat.lt_irrefl _)

theorem dvReserve_eq_pos (v : dvector T) (n : Nat) (h : Heap T) (hlt : v.capacity_ < n) :
    dvReserve v n h = (⟨n, v.size_, some h.length⟩,
      hSetRange (some h.length) (fun hh i => readCell hh v i)
        (h ++ [List.replicate n none]) 0 v.size_) := by
  unfold dvReserve
  rw [if_pos hlt, allocate_pos n h (Nat.lt_of_le_of_lt (Nat.zero_le _) hlt)]

theorem dvReserve_eq_neg (v : dvector T) (n : Nat) (h : Heap T) (hge : ¬ v.capacity_ < n) :
    dvReserve v n h = (v, h) := by
  unfold dvReserve
  rw [if_neg hge]

theorem dvReserve_frame (v : dvector T) (n : Nat) (h : Heap T) :
    (∀ q, q < h.length → (dvReserve v n h).2.getD q [] = h.getD q []) ∧
    h.length ≤ (dvReserve v n h).2.length ∧
    ((dvReserve v n h).1.storage_ = v.storage_ ∨
      (dvReserve v n h).1.storage_ = some h.length) := by
  by_cases hlt : v.capacity_ < n
  · rw [dvReserve_eq_pos v n h hlt]
    refine ⟨fun q hq => ?_, ?_, Or.inr rfl⟩
    · rw [hSetRange_getD_ne _ _ _ (Nat.ne_of_lt hq), getD_append_blocks h _ q hq]
    · rw [hSetRange_length, List.length_append]
      exact Nat.le_add_right _ _
  · rw [dvReserve_eq_neg v n h hlt]
    exact ⟨fun q _ => rfl, Nat.le_refl _, Or.inl rfl⟩

theorem dvReserve_spec (v : dvector T) (n : Nat) (h : Heap T) (hwf : dvWF h v) :
    dvWF (dvReserve v n h).2 (dvReserve v n h).1 ∧
    (dvReserve v n h).1.size_ = v.size_ ∧
    (dvReserve v n h).1.capacity_ = max v.capacity_ n ∧
    (∀ i, i < v.size_ →
      readCell (dvReserve v n h).2 (dvReserve v n h).1 i = readCell h v i) := by
  by_cases hlt : v.capacity_ < n
  · rw [dvReserve_eq_pos v n h hlt]
    have hnotfresh : v.storage_ ≠ some h.length := dvWF_not_fresh h v hwf
    have hf : ∀ (hh : Heap T) (j : Nat) (x : Option T) (i : Nat),
        readCell (hWrite hh (some h.length) j x) v i = readCell hh v i :=
      fun hh j x i => readCell_hWrite_ne hh v h.length j x hnotfresh i
    have hblk : (hSetRange (some h.length) (fun hh i => readCell hh v i)
        (h ++ [List.replicate n none]) 0 v.size_).getD h.length [] =
        setRange (fun i => readCell (h ++ [List.replicate n none]) v i)
          (List.replicate n none) 0 v.size_ := by
      rw [hSetRange_getD_self _ _ hf, getD_append_fresh]
    have hread : ∀ i, readCell (h ++ [List.replicate n none]) v i = readCell h v i :=
      fun i => readCell_congr _ _ _
        (blockOf_append h _ v (fun bid hbid => (dvWF_block h v hwf bid hbid).1)) i
    have hsz : v.size_ ≤ v.capacity_ := hwf.1
    have hszn : v.size_ ≤ n := Nat.le_of_lt (Nat.lt_of_le_of_lt hsz hlt)
    refine ⟨⟨hszn, ?_, ?_⟩, rfl, (Nat.max_eq_right (Nat.le_of_lt hlt)).symm, fun i hi => ?_⟩
    · constructor
      · intro hcontra
        exact absurd hcontra (by simp)
      · intro hn0
        exact absurd hn0 (Nat.pos_iff_ne_zero.mp (Nat.lt_of_le_of_lt (Nat.zero_le _) hlt))
    · show h.length < _ ∧ _
      constructor
      · rw [hSetRange_length, List.length_append]
        simp
      · rw [hblk, setRange_length, List.length_replicate]
    · show (List.getD (hSetRange (some h.length) (fun hh i => readCell hh v i)
          (h ++ [List.replicate n none]) 0 v.size_) h.length []).getD i none = readCell h v i
      rw [hblk, setRange_getD_mem _ _ _ _ _ (Nat.zero_le i) (by omega)
        (by rw [List.length_replicate]; omega), hread]
  · rw [dvReserve_eq_neg v n h hlt]
    exact ⟨hwf, rfl, (Nat.max_eq_left (Nat.le_of_not_lt hlt)).symm, fun i _ => rfl⟩

theorem hWrite_getD_ne_opt (h : Heap T) (p : Option Nat) (bid : Nat) (i : Nat) (x : Option T)
    (hp : p ≠ some bid) : (hWrite h p i x).getD bid [] = h.getD bid [] := by
  cases p with
  | none => rfl
  | some q => exact hWrite_getD_ne h q bid i x fun hq => hp (by rw [hq])

theorem dvPushBack_eq_full (v : dvector T) (t : T) (h : Heap T) (hfull : v.size_ = v.capacity_) :
    dvPushBack v t h =
      (⟨(dvReserve v (max (2 * v.capacity_) 1) h).1.capacity_,
        (dvReserve v (max (2 * v.capacity_) 1) h).1.size_ + 1,
        (dvReserve v (max (2 * v.capacity_) 1) h).1.storage_⟩,
       hWrite (dvReserve v (max (2 * v.capacity_) 1) h).2
         (dvReserve v (max (2 * v.capacity_) 1) h).1.storage_
         (dvReserve v (max (2 * v.capacity_) 1) h).1.size_ (some t)) := by
  unfold dvPushBack
  rw [if_pos hfull]

theorem dvPushBack_eq_notfull (v : dvector T) (t : T) (h : Heap T)
    (hnot : ¬ v.size_ = v.capacity_) :
    dvPushBack v t h =
      (⟨v.capacity_, v.size_ + 1, v.storage_⟩, hWrite h v.storage_ v.size_ (some t)) := by
  unfold dvPushBack
  rw [if_neg hnot]

theorem capacity_lt_grown (c : Nat) : c < max (2 * c) 1 := by
  rcases Nat.eq_zero_or_pos c with hc | hc
  · subst hc
    exact Nat.lt_of_lt_of_le Nat.zero_lt_one (Nat.le_max_right _ _)
  · exact Nat.lt_of_lt_of_le (by omega) (Nat.le_max_left _ _)

theorem dvWF_storage_some (h : Heap T) (v : dvector T) (hwf : dvWF h v)
    (hc : 0 < v.capacity_) :
    ∃ bid, v.storage_ = some bid ∧ bid < h.length ∧
      (h.getD bid []).length = v.capacity_ := by
  cases hs : v.storage_ with
  | none =>
    exact absurd (hwf.2.1.mp hs) (Nat.pos_iff_ne_zero.mp hc)
  | some bid =>
    exact ⟨bid, rfl, dvWF_block h v hwf bid hs⟩

theorem readCell_some (h : Heap T) (v : dvector T) (bid : Nat) (hs : v.storage_ = some bid)
    (i : Nat) : readCell h v i = (h.getD bid []).getD i none := by
  unfold readCell blockOf
  rw [hs]

theorem dvPushBack_spec (v : dvector T) (t : T) (h : Heap T) (hwf : dvWF h v) :
    dvWF (dvPushBack v t h).2 (dvPushBack v t h).1 ∧
    (dvPushBack v t h).1.size_ = v.size_ + 1 ∧
    (dvPushBack v t h).1.capacity_ =
      (if v.size_ = v.capacity_ then max (2 * v.capacity_) 1 else v.capacity_) ∧
    readCell (dvPushBack v t h).2 (dvPushBack v t h).1 v.size_ = some t ∧
    (∀ i, i < v.size_ →
      readCell (dvPushBack v t h).2 (dvPushBack v t h).1 i = readCell h v i) := by
  by_cases hfull : v.size_ = v.capacity_
  · rw [dvPushBack_eq_full v t h hfull, if_pos hfull]
    obtain ⟨hwf1, hsz1, hcap1, hrd1⟩ := dvReserve_spec v (max (2 * v.capacity_) 1) h hwf
    have hcapM : (dvReserve v (max (2 * v.capacity_) 1) h).1.capacity_ =
        max (2 * v.capacity_) 1 := by
      rw [hcap1]
      exact Nat.max_eq_right (Nat.le_of_lt (capacity_lt_grown _))
    obtain ⟨bid1, hs1, hb1, hlen1⟩ := dvWF_storage_some _ _ hwf1 (by
      rw [hcapM]
      exact Nat.lt_of_le_of_lt (Nat.zero_le _) (capacity_lt_grown _))
    have hszlt : v.size_ < (dvReserve v (max (2 * v.capacity_) 1) h).1.capacity_ := by
      rw [hcapM, hfull]
      exact capacity_lt_grown _
    rw [hs1]
    refine ⟨⟨by dsimp only; omega, ⟨fun hcontra => absurd hcontra (by simp), fun h0 => ?_⟩, ?_⟩,
      by dsimp only; omega, by dsimp only; exact hcapM, ?_, fun i hi => ?_⟩
    · dsimp only at h0
      rw [hcapM] at h0
      have := capacity_lt_grown v.capacity_
      omega
    · show bid1 < _ ∧ _
      refine ⟨by rw [hWrite_length]; exact hb1, ?_⟩
      rw [hWrite_getD_self, List.length_set, hlen1]
    · rw [readCell_some _ _ bid1 rfl, hWrite_getD_self, hsz1,
        getD_set_self _ _ _ (by rw [hlen1]; exact hszlt)]
    · rw [readCell_some _ _ bid1 rfl, hWrite_getD_self, hsz1,
        getD_set_ne _ _ _ _ (by omega), ← readCell_some _ _ bid1 hs1]
      exact hrd1 i hi
  · rw [dvPushBack_eq_notfull v t h hfull]
    have hszlt : v.size_ < v.capacity_ := Nat.lt_of_le_of_ne hwf.1 hfull
    obtain ⟨bid, hs, hb, hlen⟩ := dvWF_storage_some h v hwf
      (Nat.lt_of_le_of_lt (Nat.zero_le _) hszlt)
    rw [hs, if_neg hfull]
    refine ⟨⟨by dsimp only; omega, ⟨fun hcontra => absurd hcontra (by simp), fun h0 => ?_⟩, ?_⟩,
      rfl, rfl, ?_, fun i hi => ?_⟩
    · dsimp only at h0
      omega
    · show bid < _ ∧ _
      refine ⟨by rw [hWrite_length]; exact hb, ?_⟩
      rw [hWrite_getD_self, List.length_set, hlen]
    · rw [readCell_some _ _ bid rfl, hWrite_getD_self,
        getD_set_self _ _ _ (by rw [hlen]; exact hszlt)]
    · rw [readCell_some _ _ bid rfl, hWrite_getD_self,
        getD_set_ne _ _ _ _ (by omega), ← readCell_some h v bid hs]

theorem hWrite_getD_length (h : Heap T) (p : Option Nat) (i : Nat) (x : Option T) (q : Nat) :
    ((hWrite h p i x).getD q []).length = (h.getD q []).length := by
  cases p with
  | none => rfl
  | some bid =>
    by_cases hq : q = bid
    · subst hq
      rw [hWrite_getD_self, List.length_set]
    · rw [hWrite_getD_ne h bid q i x hq]

theorem hSetRange_getD_length (p : Option Nat) (f : Heap T → Nat → Option T) :
    ∀ (cnt : Nat) (h : Heap T) (lo q : Nat),
      ((hSetRange p f h lo cnt).getD q []).length = (h.getD q []).length
  | 0, _, _, _ => rfl
  | cnt + 1, h, lo, q => by
    rw [hSetRange, hSetRange_getD_length p f cnt, hWrite_getD_length]

theorem dvPopBack_spec (v : dvector T) (h : Heap T) (hwf : dvWF h v) (hpos : 0 < v.size_) :
    dvPopBack v h = .ok (readCell h v (v.size_ - 1), ⟨v.capacity_, v.size_ - 1, v.storage_⟩) ∧
    dvWF h ⟨v.capacity_, v.size_ - 1, v.storage_⟩ := by
  constructor
  · unfold dvPopBack
    rw [if_pos hpos]
  · exact ⟨Nat.le_trans (Nat.sub_le _ _) hwf.1, hwf.2.1, hwf.2.2⟩

theorem dvClear_frame (v : dvector T) (h : Heap T) (q : Nat) (hq : v.storage_ ≠ some q) :
    (dvClear v h).2.getD q [] = h.getD q [] := by
  unfold dvClear
  cases hs : v.storage_ with
  | none => rw [hSetRange_none]
  | some bid =>
    exact hSetRange_getD_ne _ _ _ (fun hqb => hq (by rw [hs, hqb])) _ _ _

theorem dvClear_length (v : dvector T) (h : Heap T) : (dvClear v h).2.length = h.length := by
  unfold dvClear
  exact hSetRange_length _ _ _ _ _

theorem dvClear_spec (v : dvector T) (h : Heap T) (hwf : dvWF h v) :
    (dvClear v h).1 = ⟨v.capacity_, 0, v.storage_⟩ ∧
    dvWF (dvClear v h).2 (dvClear v h).1 := by
  refine ⟨rfl, Nat.zero_le _, hwf.2.1, ?_⟩
  show (match v.storage_ with
    | none => True
    | some bid => bid < (dvClear v h).2.length ∧
        ((dvClear v h).2.getD bid []).length = v.capacity_ : Prop)
  cases hs : v.storage_ with
  | none => trivial
  | some bid =>
    have h3 := dvWF_block h v hwf bid hs
    constructor
    · rw [dvClear_length]
      exact h3.1
    · show ((hSetRange v.storage_ (fun _ _ => none) h 0 v.size_).getD bid []).length =
        v.capacity_
      rw [hSetRange_getD_length]
      exact h3.2

theorem dvMkSized_spec [Inhabited T] (n : Nat) (h : Heap T) :
    dvWF (dvMkSized n h).2 (dvMkSized (T := T) n h).1 ∧
    (dvMkSized (T := T) n h).1.size_ = n ∧
    (dvMkSized (T := T) n h).1.capacity_ = n ∧
    (∀ i, i < n → readCell (dvMkSized n h).2 (dvMkSized (T := T) n h).1 i = some default) := by
  rcases Nat.eq_zero_or_pos n with hn | hn
  · subst hn
    exact ⟨⟨Nat.le_refl 0, ⟨fun _ => rfl, fun _ => rfl⟩, trivial⟩, rfl, rfl,
      fun i hi => absurd hi (Nat.not_lt_zero i)⟩
  · unfold dvMkSized
    rw [allocate_pos n h hn]
    have hblk : (hSetRange (some h.length) (fun _ _ => some default)
        (h ++ [List.replicate n none]) 0 n).getD h.length [] =
        setRange (fun _ => some (default : T)) (List.replicate n none) 0 n := by
      rw [hSetRange_getD_self (fun _ _ => some (default : T)) h.length
        (fun _ _ _ _ => rfl), getD_append_fresh]
    refine ⟨⟨Nat.le_refl n, ⟨fun hcontra => absurd hcontra (by simp),
      fun h0 => absurd h0 (Nat.pos_iff_ne_zero.mp hn)⟩, ?_⟩, rfl, rfl, fun i hi => ?_⟩
    · show h.length < _ ∧ _
      constructor
      · rw [hSetRange_length, List.length_append]
        simp
      · rw [hblk, setRange_length, List.length_replicate]
    · rw [readCell_some _ _ h.length rfl, hblk,
        setRange_getD_mem _ _ _ _ _ (Nat.zero_le i) (by omega)
          (by rw [List.length_replicate]; exact hi)]

theorem dvShrinkToFit_spec (v : dvector T) (h : Heap T) (hwf : dvWF h v) :
    dvWF (dvShrinkToFit v h).2 (dvShrinkToFit v h).1 ∧
    (dvShrinkToFit v h).1.size_ = v.size_ ∧
    (dvShrinkToFit v h).1.capacity_ = min v.capacity_ v.size_ := by
  by_cases hlt : v.size_ < v.capacity_
  · rcases Nat.eq_zero_or_pos v.size_ with hn | hn
    · have heq : dvShrinkToFit v h = (⟨0, 0, none⟩, h) := by
        unfold dvShrinkToFit
        rw [if_pos hlt, hn, allocate_zero]
        rfl
      rw [heq]
      refine ⟨⟨Nat.le_refl 0, ⟨fun _ => rfl, fun _ => rfl⟩, trivial⟩, hn.symm, by dsimp only; omega⟩
    · have heq : dvShrinkToFit v h = (⟨v.size_, v.size_, some h.length⟩,
          hSetRange (some h.length) (fun hh i => readCell hh v i)
            (h ++ [List.replicate v.size_ none]) 0 v.size_) := by
        unfold dvShrinkToFit
        rw [if_pos hlt, allocate_pos _ h hn]
      rw [heq]
      refine ⟨⟨Nat.le_refl _, ⟨fun hcontra => absurd hcontra (by simp),
        fun h0 => absurd h0 (Nat.pos_iff_ne_zero.mp hn)⟩, ?_⟩, rfl, by dsimp only; omega⟩
      show h.length < _ ∧ _
      constructor
      · rw [hSetRange_length, List.length_append]
        simp
      · rw [hSetRange_getD_length, getD_append_fresh, List.length_replicate]
  · have heq : dvShrinkToFit v h = (v, h) := by
      unfold dvShrinkToFit
      rw [if_neg hlt]
    rw [heq]
    exact ⟨hwf, rfl, by dsimp only; omega⟩

theorem hSetRange_getD_ne_opt (p : Option Nat) (f : Heap T → Nat → Option T) (q : Nat)
    (hp : p ≠ some q) (cnt : Nat) (h : Heap T) (lo : Nat) :
    (hSetRange p f h lo cnt).getD q [] = h.getD q [] := by
  cases p with
  | none => rw [hSetRange_none]
  | some bid => exact hSetRange_getD_ne f bid q (fun hqb => hp (by rw [hqb])) cnt h lo

theorem dvResize_eq [Inhabited T] (v : dvector T) (n : Nat) (h : Heap T) (v1 : dvector T)
    (h1 : Heap T) (he : (if v.capacity_ < n then dvReserve v n h else (v, h)) = (v1, h1)) :
    dvResize v n h =
      (⟨v1.capacity_, n, v1.storage_⟩,
        hSetRange v1.storage_ (fun _ _ => some default)
          (hSetRange v1.storage_ (fun _ _ => none) h1 n (v1.size_ - n)) v1.size_
          (n - v1.size_)) := by
  unfold dvResize
  rw [he]

theorem dvResize_WF [Inhabited T] (v : dvector T) (n : Nat) (h : Heap T) (hwf : dvWF h v) :
    dvWF (dvResize v n h).2 (dvResize v n h).1 ∧ (dvResize v n h).1.size_ = n := by
  rcases hbranch : (if v.capacity_ < n then dvReserve v n h else (v, h)) with ⟨v1, h1⟩
  have key : dvWF h1 v1 ∧ n ≤ v1.capacity_ := by
    by_cases hlt : v.capacity_ < n
    · rw [if_pos hlt] at hbranch
      have hs := dvReserve_spec v n h hwf
      rw [hbranch] at hs
      dsimp only at hs
      refine ⟨hs.1, ?_⟩
      rw [hs.2.2.1]
      omega
    · rw [if_neg hlt] at hbranch
      injection hbranch with hv hh
      subst hv
      subst hh
      exact ⟨hwf, by omega⟩
  rw [dvResize_eq v n h v1 h1 hbranch]
  dsimp only
  refine ⟨⟨key.2, key.1.2.1, ?_⟩, rfl⟩
  cases hs1 : v1.storage_ with
  | none => trivial
  | some bid =>
    have hb := dvWF_block h1 v1 key.1 bid hs1
    constructor
    · rw [hSetRange_length, hSetRange_length]
      exact hb.1
    · rw [hSetRange_getD_length, hSetRange_getD_length]
      exact hb.2

theorem dvResize_frame [Inhabited T] (v : dvector T) (n : Nat) (h : Heap T) (q : Nat)
    (hq : q < h.length) (hqa : v.storage_ ≠ some q) :
    (dvResize v n h).2.getD q [] = h.getD q [] ∧
    h.length ≤ (dvResize v n h).2.length ∧
    (dvResize v n h).1.storage_ ≠ some q := by
  rcases hbranch : (if v.capacity_ < n then dvReserve v n h else (v, h)) with ⟨v1, h1⟩
  have key : h1.getD q [] = h.getD q [] ∧ h.length ≤ h1.length ∧ v1.storage_ ≠ some q := by
    by_cases hlt : v.capacity_ < n
    · rw [if_pos hlt] at hbranch
      have hf := dvReserve_frame v n h
      rw [hbranch] at hf
      dsimp only at hf
      refine ⟨hf.1 q hq, hf.2.1, ?_⟩
      rcases hf.2.2 with hcase | hcase
      · rw [hcase]
        exact hqa
      · rw [hcase]
        intro heq
        injection heq with heq'
        omega
    · rw [if_neg hlt] at hbranch
      injection hbranch with hv hh
      subst hv
      subst hh
      exact ⟨rfl, Nat.le_refl _, hqa⟩
  rw [dvResize_eq v n h v1 h1 hbranch]
  dsimp only
  refine ⟨?_, ?_, key.2.2⟩
  · rw [hSetRange_getD_ne_opt _ _ _ key.2.2, hSetRange_getD_ne_opt _ _ _ key.2.2, key.1]
  · rw [hSetRange_length, hSetRange_length]
    exact key.2.1

theorem dvPushBack_frame (v : dvector T) (t : T) (h : Heap T) (q : Nat) (hq : q < h.length)
    (hqa : v.storage_ ≠ some q) :
    (dvPushBack v t h).2.getD q [] = h.getD q [] ∧
    h.length ≤ (dvPushBack v t h).2.length ∧
    (dvPushBack v t h).1.storage_ ≠ some q := by
  by_cases hfull : v.size_ = v.capacity_
  · rw [dvPushBack_eq_full v t h hfull]
    have hf := dvReserve_frame v (max (2 * v.capacity_) 1) h
    have hst : (dvReserve v (max (2 * v.capacity_) 1) h).1.storage_ ≠ some q := by
      rcases hf.2.2 with hcase | hcase
      · rw [hcase]
        exact hqa
      · rw [hcase]
        intro heq
        injection heq with heq'
        omega
    dsimp only
    refine ⟨?_, ?_, hst⟩
    · rw [hWrite_getD_ne_opt _ _ _ _ _ hst, hf.1 q hq]
    · rw [hWrite_length]
      exact hf.2.1
  · rw [dvPushBack_eq_notfull v t h hfull]
    dsimp only
    refine ⟨hWrite_getD_ne_opt _ _ _ _ _ hqa, ?_, hqa⟩
    rw [hWrite_length]

theorem dvApplyMut_frame [Inhabited T] (m : dvMut T) (v : dvector T) (h : Heap T) (q : Nat)
    (hq : q < h.length) (hqa : v.storage_ ≠ some q) :
    (dvApplyMut m v h).2.getD q [] = h.getD q [] ∧
    h.length ≤ (dvApplyMut m v h).2.length ∧
    (dvApplyMut m v h).1.storage_ ≠ some q := by
  cases m with
  | push t => exact dvPushBack_frame v t h q hq hqa
  | pop =>
    by_cases hpos : 0 < v.size_
    · have heq : dvApplyMut (T := T) .pop v h = (⟨v.capacity_, v.size_ - 1, v.storage_⟩, h) := by
        unfold dvApplyMut dvPopBack
        dsimp only
        rw [if_pos hpos]
      rw [heq]
      exact ⟨rfl, Nat.le_refl _, hqa⟩
    · have heq : dvApplyMut (T := T) .pop v h = (v, h) := by
        unfold dvApplyMut dvPopBack
        dsimp only
        rw [if_neg hpos]
      rw [heq]
      exact ⟨rfl, Nat.le_refl _, hqa⟩
  | resize n => exact dvResize_frame v n h q hq hqa
  | write i t =>
    by_cases hcond : 0 ≤ i ∧ i < (v.size_ : Int)
    · have heq : dvApplyMut (T := T) (.write i t) v h =
          (v, hWrite h v.storage_ i.toNat (some t)) := by
        unfold dvApplyMut dvSet
        dsimp only
        rw [if_pos hcond]
      rw [heq]
      refine ⟨hWrite_getD_ne_opt _ _ _ _ _ hqa, ?_, hqa⟩
      rw [hWrite_length]
    · have heq : dvApplyMut (T := T) (.write i t) v h = (v, h) := by
        unfold dvApplyMut dvSet
        dsimp only
        rw [if_neg hcond]
      rw [heq]
      exact ⟨rfl, Nat.le_refl _, hqa⟩

theorem dvApplyMuts_frame [Inhabited T] :
    ∀ (ms : List (dvMut T)) (v : dvector T) (h : Heap T) (q : Nat), q < h.length →
      v.storage_ ≠ some q →
      (dvApplyMuts ms v h).2.getD q [] = h.getD q [] ∧
      q < (dvApplyMuts ms v h).2.length ∧
      (dvApplyMuts ms v h).1.storage_ ≠ some q
  | [], _, _, _, hq, hqa => ⟨rfl, hq, hqa⟩
  | m :: ms, v, h, q, hq, hqa => by
    have hstep := dvApplyMut_frame m v h q hq hqa
    have hrec := dvApplyMuts_frame ms (dvApplyMut m v h).1 (dvApplyMut m v h).2 q
      (Nat.lt_of_lt_of_le hq hstep.2.1) hstep.2.2
    refine ⟨?_, ?_, ?_⟩
    · show (dvApplyMuts ms (dvApplyMut m v h).1 (dvApplyMut m v h).2).2.getD q [] = _
      rw [hrec.1, hstep.1]
    · show q < (dvApplyMuts ms (dvApplyMut m v h).1 (dvApplyMut m v h).2).2.length
      exact hrec.2.1
    · show (dvApplyMuts ms (dvApplyMut m v h).1 (dvApplyMut m v h).2).1.storage_ ≠ some q
      exact hrec.2.2

theorem hSetRange_zero (p : Option Nat) (f : Heap T → Nat → Option T) (h : Heap T) (lo : Nat) :
    hSetRange p f h lo 0 = h := rfl

theorem blockOf_hSetRange_ne_opt (p : Option Nat) (f : Heap T → Nat → Option T)
    (c : Option Nat) (hc : ∀ bid, p = some bid → c ≠ some bid) (cnt : Nat) (h : Heap T)
    (lo : Nat) : blockOf (hSetRange p f h lo cnt) c = blockOf h c := by
  cases p with
  | none => rw [hSetRange_none]
  | some bid =>
    unfold blockOf
    cases hcs : c with
    | none => rfl
    | some q =>
      refine hSetRange_getD_ne f bid q (fun hqb => hc bid rfl ?_) cnt h lo
      rw [hcs, hqb]

theorem dvClear_blockOf_other (a : dvector T) (h : Heap T) (c : Option Nat)
    (hc : ∀ bid, a.storage_ = some bid → c ≠ some bid) :
    blockOf (dvClear a h).2 c = blockOf h c := by
  unfold dvClear
  exact blockOf_hSetRange_ne_opt a.storage_ _ c hc _ _ _

theorem readCell_of_getD_eq (h h' : Heap T) (a : dvector T)
    (hb : ∀ bid, a.storage_ = some bid → h'.getD bid [] = h.getD bid []) (i : Nat) :
    readCell h' a i = readCell h a i := by
  cases hs : a.storage_ with
  | none =>
    unfold readCell blockOf
    rw [hs]
  | some bid =>
    rw [readCell_some h' a bid hs, readCell_some h a bid hs, hb bid hs]

theorem dvCopyCtor_spec (b : dvector T) (h : Heap T) (hwf : dvWF h b) :
    dvWF (dvCopyCtor b h).2 (dvCopyCtor b h).1 ∧
    (dvCopyCtor b h).1.size_ = b.size_ ∧
    (dvCopyCtor b h).1.capacity_ = b.capacity_ ∧
    (∀ i, i < b.size_ →
      readCell (dvCopyCtor b h).2 (dvCopyCtor b h).1 i = readCell h b i) := by
  rcases Nat.eq_zero_or_pos b.capacity_ with hc | hc
  · have hsz : b.size_ = 0 := by
      have := hwf.1
      omega
    have heq : dvCopyCtor b h = (⟨0, 0, none⟩, h) := by
      unfold dvCopyCtor
      rw [hc, hsz, allocate_zero]
      rfl
    rw [heq]
    exact ⟨⟨Nat.le_refl 0, ⟨fun _ => rfl, fun _ => rfl⟩, trivial⟩, hsz.symm, hc.symm,
      fun i hi => absurd hi (by omega)⟩
  · have heq : dvCopyCtor b h = (⟨b.capacity_, b.size_, some h.length⟩,
        hSetRange (some h.length) (fun hh i => readCell hh b i)
          (h ++ [List.replicate b.capacity_ none]) 0 b.size_) := by
      unfold dvCopyCtor
      rw [allocate_pos _ h hc]
    rw [heq]
    have hnotfresh : b.storage_ ≠ some h.length := dvWF_not_fresh h b hwf
    have hf : ∀ (hh : Heap T) (j : Nat) (x : Option T) (i : Nat),
        readCell (hWrite hh (some h.length) j x) b i = readCell hh b i :=
      fun hh j x i => readCell_hWrite_ne hh b h.length j x hnotfresh i
    have hblk : (hSetRange (some h.length) (fun hh i => readCell hh b i)
        (h ++ [List.replicate b.capacity_ none]) 0 b.size_).getD h.length [] =
        setRange (fun i => readCell (h ++ [List.replicate b.capacity_ none]) b i)
          (List.replicate b.capacity_ none) 0 b.size_ := by
      rw [hSetRange_getD_self _ _ hf, getD_append_fresh]
    have hread : ∀ i, readCell (h ++ [List.replicate b.capacity_ none]) b i = readCell h b i :=
      fun i => readCell_congr _ _ _
        (blockOf_append h _ b (fun bid hbid => (dvWF_block h b hwf bid hbid).1)) i
    refine ⟨⟨hwf.1, ⟨fun hcontra => absurd hcontra (by simp),
      fun h0 => absurd h0 (Nat.pos_iff_ne_zero.mp hc)⟩, ?_⟩, rfl, rfl, fun i hi => ?_⟩
    · show h.length < _ ∧ _
      constructor
      · rw [hSetRange_length, List.length_append]
        simp
      · rw [hblk, setRange_length, List.length_replicate]
    · rw [readCell_some _ _ h.length rfl, hblk,
        setRange_getD_mem _ _ _ _ _ (Nat.zero_le i) (by omega)
          (by rw [List.length_replicate]; have := hwf.1; omega), hread]

theorem dvCopyCtor_frame (b : dvector T) (h : Heap T) (q : Nat) (hq : q < h.length) :
    (dvCopyCtor b h).2.getD q [] = h.getD q [] ∧
    h.length ≤ (dvCopyCtor b h).2.length ∧
    (dvCopyCtor b h).1.storage_ ≠ some q := by
  rcases Nat.eq_zero_or_pos b.capacity_ with hc | hc
  · have heq : dvCopyCtor b h = (⟨b.capacity_, b.size_, none⟩,
        hSetRange none (fun hh i => readCell hh b i) h 0 b.size_) := by
      unfold dvCopyCtor
      rw [hc, allocate_zero]
    rw [heq, hSetRange_none]
    exact ⟨rfl, Nat.le_refl _, by simp⟩
  · have heq : dvCopyCtor b h = (⟨b.capacity_, b.size_, some h.length⟩,
        hSetRange (some h.length) (fun hh i => readCell hh b i)
          (h ++ [List.replicate b.capacity_ none]) 0 b.size_) := by
      unfold dvCopyCtor
      rw [allocate_pos _ h hc]
    rw [heq]
    refine ⟨?_, ?_, ?_⟩
    · rw [hSetRange_getD_ne _ _ _ (Nat.ne_of_lt hq), getD_append_blocks h _ q hq]
    · rw [hSetRange_length, List.length_append]
      exact Nat.le_add_right _ _
    · intro hcontra
      injection hcontra with hcontra'
      omega

theorem dvMoveAssign_WF (a b : dvector T) (h : Heap T) (hwfb : dvWF h b) :
    (dvMoveAssign a b h).1 = ⟨b.capacity_, b.size_, b.storage_⟩ ∧
    (dvMoveAssign a b h).2.1 = ⟨0, 0, none⟩ ∧
    dvWF (dvMoveAssign a b h).2.2 (dvMoveAssign a b h).1 ∧
    dvWF (dvMoveAssign a b h).2.2 (dvMoveAssign a b h).2.1 := by
  refine ⟨rfl, rfl, ⟨hwfb.1, hwfb.2.1, ?_⟩,
    ⟨Nat.le_refl 0, ⟨fun _ => rfl, fun _ => rfl⟩, trivial⟩⟩
  show (match b.storage_ with
    | none => True
    | some bid => bid < (dvMoveAssign a b h).2.2.length ∧
        ((dvMoveAssign a b h).2.2.getD bid []).length = b.capacity_ : Prop)
  cases hs : b.storage_ with
  | none => trivial
  | some bid =>
    have hb := dvWF_block h b hwfb bid hs
    constructor
    · show bid < (dvClear a h).2.length
      rw [dvClear_length]
      exact hb.1
    · show ((dvClear a h).2.getD bid []).length = b.capacity_
      unfold dvClear
      rw [hSetRange_getD_length]
      exact hb.2

theorem dvOfListAux_WF :
    ∀ (ts : List T) (v : dvector T) (h : Heap T), dvWF h v →
      dvWF (dvOfListAux v ts h).2 (dvOfListAux v ts h).1
  | [], _, _, hwf => hwf
  | t :: ts, v, h, hwf => by
    have hstep := (dvPushBack_spec v t h hwf).1
    have hrec := dvOfListAux_WF ts (dvPushBack v t h).1 (dvPushBack v t h).2 hstep
    show dvWF (dvOfListAux (dvPushBack v t h).1 ts (dvPushBack v t h).2).2
      (dvOfListAux (dvPushBack v t h).1 ts (dvPushBack v t h).2).1
    exact hrec

theorem dvDefault_WF (h : Heap T) : dvWF h (dvDefault (T := T)) :=
  ⟨Nat.le_refl 0, ⟨fun _ => rfl, fun _ => rfl⟩, trivial⟩

theorem dvOfList_WF (ts : List T) (h : Heap T) :
    dvWF (dvOfList ts h).2 (dvOfList ts h).1 := by
  have hres := dvReserve_spec dvDefault ts.length h (dvDefault_WF h)
  show dvWF (dvOfListAux (dvReserve dvDefault ts.length h).1 ts
      (dvReserve dvDefault ts.length h).2).2
    (dvOfListAux (dvReserve dvDefault ts.length h).1 ts
      (dvReserve dvDefault ts.length h).2).1
  exact dvOfListAux_WF ts _ _ hres.1

theorem dvCopyAssign_eq_reuse (a b : dvector T) (h : Heap T) (hge : ¬ a.capacity_ < b.capacity_) :
    dvCopyAssign a b h =
      (⟨a.capacity_, b.size_, a.storage_⟩,
       hSetRange a.storage_ (fun _ _ => none)
         (hSetRange a.storage_ (fun hh i => readCell hh b i)
           (hSetRange a.storage_ (fun hh i => readCell hh b i) h 0 (min a.size_ b.size_))
           (min a.size_ b.size_) (b.size_ - min a.size_ b.size_))
         b.size_ (a.size_ - b.size_),
       (List.range (min a.size_ b.size_)).map CellOp.assign
         ++ (List.range' (min a.size_ b.size_) (b.size_ - min a.size_ b.size_)).map
              CellOp.construct
         ++ (List.range' b.size_ (a.size_ - b.size_)).map CellOp.destroy) := by
  unfold dvCopyAssign
  rw [if_neg hge]

theorem dvCopyAssign_eq_realloc (a b : dvector T) (h : Heap T)
    (hlt : a.capacity_ < b.capacity_) :
    dvCopyAssign a b h =
      (⟨b.capacity_, b.size_, some (dvClear a h).2.length⟩,
       hSetRange (some (dvClear a h).2.length) (fun _ _ => none)
         (hSetRange (some (dvClear a h).2.length) (fun hh i => readCell hh b i)
           (hSetRange (some (dvClear a h).2.length) (fun hh i => readCell hh b i)
             ((dvClear a h).2 ++ [List.replicate b.capacity_ none]) 0 (min 0 b.size_))
           (min 0 b.size_) (b.size_ - min 0 b.size_))
         b.size_ (0 - b.size_),
       (List.range (min 0 b.size_)).map CellOp.assign
         ++ (List.range' (min 0 b.size_) (b.size_ - min 0 b.size_)).map CellOp.construct
         ++ (List.range' b.size_ (0 - b.size_)).map CellOp.destroy) := by
  have hclear : dvClear a h = (⟨a.capacity_, 0, a.storage_⟩, (dvClear a h).2) := rfl
  unfold dvCopyAssign
  rw [if_pos hlt, hclear]
  dsimp only
  rw [allocate_pos b.capacity_ (dvClear a h).2 (by omega)]

theorem dvCopyAssign_WF (a b : dvector T) (h : Heap T) (hwfa : dvWF h a) (hwfb : dvWF h b) :
    dvWF (dvCopyAssign a b h).2.1 (dvCopyAssign a b h).1 ∧
    (dvCopyAssign a b h).1.size_ = b.size_ := by
  by_cases hlt : a.capacity_ < b.capacity_
  · rw [dvCopyAssign_eq_realloc a b h hlt]
    refine ⟨⟨hwfb.1, ⟨fun hcontra => absurd hcontra (by simp),
      fun h0 => absurd h0 (by dsimp only; omega)⟩, ?_⟩, rfl⟩
    show (dvClear a h).2.length < _ ∧ _
    constructor
    · rw [hSetRange_length, hSetRange_length, hSetRange_length, List.length_append]
      simp
    · rw [hSetRange_getD_length, hSetRange_getD_length, hSetRange_getD_length,
        getD_append_fresh, List.length_replicate]
  · rw [dvCopyAssign_eq_reuse a b h hlt]
    have hb1 := hwfb.1
    refine ⟨⟨by dsimp only; omega, hwfa.2.1, ?_⟩, rfl⟩
    show (match a.storage_ with
      | none => True
      | some bid => bid < (hSetRange a.storage_ (fun _ _ => none)
            (hSetRange a.storage_ (fun hh i => readCell hh b i)
              (hSetRange a.storage_ (fun hh i => readCell hh b i) h 0
                (min a.size_ b.size_))
              (min a.size_ b.size_) (b.size_ - min a.size_ b.size_))
            b.size_ (a.size_ - b.size_)).length ∧
          ((hSetRange a.storage_ (fun _ _ => none)
            (hSetRange a.storage_ (fun hh i => readCell hh b i)
              (hSetRange a.storage_ (fun hh i => readCell hh b i) h 0
                (min a.size_ b.size_))
              (min a.size_ b.size_) (b.size_ - min a.size_ b.size_))
            b.size_ (a.size_ - b.size_)).getD bid []).length = a.capacity_ : Prop)
    cases hs : a.storage_ with
    | none => trivial
    | some bid =>
      have hb := dvWF_block h a hwfa bid hs
      constructor
      · rw [hSetRange_length, hSetRange_length, hSetRange_length]
        exact hb.1
      · rw [hSetRange_getD_length, hSetRange_getD_length, hSetRange_getD_length]
        exact hb.2

theorem dvCopyAssign_frame (a b : dvector T) (h : Heap T) (q : Nat) (hq : q < h.length)
    (hqa : a.storage_ ≠ some q) :
    (dvCopyAssign a b h).2.1.getD q [] = h.getD q [] ∧
    h.length ≤ (dvCopyAssign a b h).2.1.length ∧
    (dvCopyAssign a b h).1.storage_ ≠ some q := by
  by_cases hlt : a.capacity_ < b.capacity_
  · rw [dvCopyAssign_eq_realloc a b h hlt]
    have hftq : (some (dvClear a h).2.length : Option Nat) ≠ some q := by
      rw [dvClear_length]
      intro heq
      injection heq with heq'
      omega
    refine ⟨?_, ?_, hftq⟩
    · rw [hSetRange_getD_ne_opt _ _ _ hftq, hSetRange_getD_ne_opt _ _ _ hftq,
        hSetRange_getD_ne_opt _ _ _ hftq,
        getD_append_blocks _ _ q (by rw [dvClear_length]; exact hq),
        dvClear_frame a h q hqa]
    · rw [hSetRange_length, hSetRange_length, hSetRange_length, List.length_append,
        dvClear_length]
      exact Nat.le_add_right _ _
  · rw [dvCopyAssign_eq_reuse a b h hlt]
    refine ⟨?_, ?_, hqa⟩
    · rw [hSetRange_getD_ne_opt _ _ _ hqa, hSetRange_getD_ne_opt _ _ _ hqa,
        hSetRange_getD_ne_opt _ _ _ hqa]
    · rw [hSetRange_length, hSetRange_length, hSetRange_length]

theorem dvCopyAssign_vals (a b : dvector T) (h : Heap T) (hwfa : dvWF h a) (hwfb : dvWF h b)
    (hne : ∀ bid, a.storage_ = some bid → b.storage_ ≠ some bid) :
    (∀ i, i < b.size_ →
      readCell (dvCopyAssign a b h).2.1 (dvCopyAssign a b h).1 i = readCell h b i) ∧
    (¬ a.capacity_ < b.capacity_ →
      (∀ i, b.size_ ≤ i → i < a.size_ →
        readCell (dvCopyAssign a b h).2.1 (dvCopyAssign a b h).1 i = none) ∧
      (dvCopyAssign a b h).2.2 =
        (List.range (min a.size_ b.size_)).map CellOp.assign
          ++ (List.range' (min a.size_ b.size_) (b.size_ - min a.size_ b.size_)).map
               CellOp.construct
          ++ (List.range' b.size_ (a.size_ - b.size_)).map CellOp.destroy) := by
  by_cases hlt : a.capacity_ < b.capacity_
  · rw [dvCopyAssign_eq_realloc a b h hlt]
    refine ⟨fun i hi => ?_, fun hge => absurd hlt hge⟩
    have hbne : b.storage_ ≠ some (dvClear a h).2.length := by
      intro heq
      have hblk := (dvWF_block h b hwfb _ heq).1
      rw [dvClear_length] at hblk
      exact absurd hblk (Nat.lt_irrefl _)
    have hf : ∀ (hh : Heap T) (j : Nat) (x : Option T) (i : Nat),
        readCell (hWrite hh (some (dvClear a h).2.length) j x) b i = readCell hh b i :=
      fun hh j x i => readCell_hWrite_ne hh b _ j x hbne i
    rw [readCell_some _ _ (dvClear a h).2.length rfl, Nat.zero_sub, hSetRange_zero,
      Nat.zero_min, Nat.sub_zero, hSetRange_zero,
      hSetRange_getD_self (fun hh i => readCell hh b i) (dvClear a h).2.length hf,
      getD_append_fresh,
      setRange_getD_mem _ _ _ _ _ (Nat.zero_le i) (by omega)
        (by rw [List.length_replicate]; have := hwfb.1; omega)]
    have hstep1 : readCell ((dvClear a h).2 ++ [List.replicate b.capacity_ none]) b i =
        readCell (dvClear a h).2 b i := by
      refine readCell_congr _ _ _ (blockOf_append _ _ b fun bid hbid => ?_) i
      rw [dvClear_length]
      exact (dvWF_block h b hwfb bid hbid).1
    rw [hstep1]
    exact readCell_congr _ _ _ (dvClear_blockOf_other a h b.storage_
      (fun bid hbid hcontra => hne bid hbid hcontra)) i
  · rw [dvCopyAssign_eq_reuse a b h hlt]
    have ha1 := hwfa.1
    have hb1 := hwfb.1
    cases hs : a.storage_ with
    | none =>
      have hcap0 : a.capacity_ = 0 := hwfa.2.1.mp hs
      refine ⟨fun i hi => absurd hi (by omega),
        fun _ => ⟨fun i h1 h2 => absurd h2 (by omega), rfl⟩⟩
    | some abid =>
      have hbne := hne abid hs
      have hf : ∀ (hh : Heap T) (j : Nat) (x : Option T) (i : Nat),
          readCell (hWrite hh (some abid) j x) b i = readCell hh b i :=
        fun hh j x i => readCell_hWrite_ne hh b abid j x hbne i
      have hcap := (dvWF_block h a hwfa abid hs).2
      have hblk : (hSetRange (some abid) (fun _ _ => none)
            (hSetRange (some abid) (fun hh i => readCell hh b i)
              (hSetRange (some abid) (fun hh i => readCell hh b i) h 0
                (min a.size_ b.size_))
              (min a.size_ b.size_) (b.size_ - min a.size_ b.size_))
            b.size_ (a.size_ - b.size_)).getD abid [] =
          setRange (fun _ => none)
            (setRange (fun i => readCell h b i)
              (setRange (fun i => readCell h b i) (h.getD abid []) 0
                (min a.size_ b.size_))
              (min a.size_ b.size_) (b.size_ - min a.size_ b.size_))
            b.size_ (a.size_ - b.size_) := by
        rw [hSetRange_getD_self (fun _ _ => (none : Option T)) abid (fun _ _ _ _ => rfl),
          hSetRange_getD_self (fun hh i => readCell hh b i) abid hf,
          hSetRange_getD_self (fun hh i => readCell hh b i) abid hf]
        have e1 : (fun i => readCell (hSetRange (some abid)
            (fun hh i => readCell hh b i) h 0 (min a.size_ b.size_)) b i) =
            fun i => readCell h b i :=
          funext fun i => readCell_congr _ _ _
            (blockOf_hSetRange_ne _ b abid hbne _ _ _) i
        rw [e1]
      refine ⟨fun i hi => ?_, fun _ => ⟨fun i h1 h2 => ?_, rfl⟩⟩
      · rw [readCell_some _ _ abid rfl, hblk]
        by_cases him : i < min a.size_ b.size_
        · rw [setRange_getD_lt _ _ _ _ _ hi, setRange_getD_lt _ _ _ _ _ him,
            setRange_getD_mem _ _ _ _ _ (Nat.zero_le i) (by omega)
              (by rw [hcap]; omega)]
        · rw [setRange_getD_lt _ _ _ _ _ hi,
            setRange_getD_mem _ _ _ _ _ (by omega) (by omega)
              (by rw [setRange_length, hcap]; omega)]
      · rw [readCell_some _ _ abid rfl, hblk,
          setRange_getD_mem _ _ _ _ _ h1 (by omega)
            (by rw [setRange_length, setRange_length, hcap]; omega)]

/-! Lemmas about the fixed-capacity sequence. -/

theorem cell_mk (s : List (Option T)) (k i : Nat) :
    (⟨s, k⟩ : cvector_impl T N).cell i = s.getD i none := rfl

theorem readCell_storage_none (h : Heap T) (v : dvector T) (hs : v.storage_ = none) (i : Nat) :
    readCell h v i = none := by
  unfold readCell blockOf
  rw [hs]
  rfl

theorem cvDefault_WF : cvWF (cvDefault : cvector_impl T N) :=
  ⟨List.length_replicate .., Nat.zero_le N, fun i hi => absurd hi (Nat.not_lt_zero i)⟩

theorem cvOnCopy_eq (a b : cvector_impl T N) :
    cvOnCopy a b =
      (⟨setRange (fun _ => none)
          (setRange (fun i => b.cell i)
            (setRange (fun i => b.cell i) a.storage 0 (min a.n b.n))
            (min a.n b.n) (b.n - min a.n b.n))
          b.n (a.n - b.n), b.n⟩,
       (List.range (min a.n b.n)).map CellOp.assign
         ++ (List.range' (min a.n b.n) (b.n - min a.n b.n)).map CellOp.construct
         ++ (List.range' b.n (a.n - b.n)).map CellOp.destroy) := rfl

theorem cvOnCopy_spec (a b : cvector_impl T N) (ha : cvWF a) (hb : cvWF b) :
    (cvOnCopy a b).1.n = b.n ∧
    (∀ i, i < b.n → (cvOnCopy a b).1.cell i = b.cell i) ∧
    (∀ i, b.n ≤ i → i < a.n → (cvOnCopy a b).1.cell i = none) ∧
    cvWF (cvOnCopy a b).1 := by
  obtain ⟨haL, haN, _⟩ := ha
  obtain ⟨hbL, hbN, hbLive⟩ := hb
  rw [cvOnCopy_eq]
  dsimp only
  have hcell : ∀ i, i < b.n →
      (setRange (fun _ => none)
        (setRange (fun i => b.cell i)
          (setRange (fun i => b.cell i) a.storage 0 (min a.n b.n))
          (min a.n b.n) (b.n - min a.n b.n))
        b.n (a.n - b.n)).getD i none = b.cell i := by
    intro i hi
    rw [setRange_getD_lt _ _ _ _ _ hi]
    by_cases him : i < min a.n b.n
    · rw [setRange_getD_lt _ _ _ _ _ him,
        setRange_getD_mem _ _ _ _ _ (Nat.zero_le i) (by omega) (by rw [haL]; omega)]
    · rw [setRange_getD_mem _ _ _ _ _ (by omega) (by omega)
        (by rw [setRange_length, haL]; omega)]
  have hdead : ∀ i, b.n ≤ i → i < a.n →
      (setRange (fun _ => none)
        (setRange (fun i => b.cell i)
          (setRange (fun i => b.cell i) a.storage 0 (min a.n b.n))
          (min a.n b.n) (b.n - min a.n b.n))
        b.n (a.n - b.n)).getD i none = none := by
    intro i h1 h2
    rw [setRange_getD_mem _ _ _ _ _ h1 (by omega)
      (by rw [setRange_length, setRange_length, haL]; omega)]
  refine ⟨rfl, fun i hi => ?_, fun i h1 h2 => ?_, ?_, hbN, fun i hi => ?_⟩
  · rw [cell_mk]
    exact hcell i hi
  · rw [cell_mk]
    exact hdead i h1 h2
  · rw [setRange_length, setRange_length, setRange_length]
    exact haL
  · rw [cell_mk, hcell i hi]
    exact hbLive i hi

/-- C1: copy assignment reconciles index-wise for both sequence types.  For
the fixed sequence the on_copy reconciliation (used by the copy-assignment
operator for non-trivially-copy-assignable element types) yields size b.n
with every live cell equal to the source's, destroys the target's excess
cells, and performs exactly the recorded assign/construct/destroy actions;
the defaulted (trivially copy assignable) assignment also yields matching
size and cells.  For the dynamic sequence, copy assignment from b yields
size b.size_ and matching element values; when the target's buffer is reused
(b.capacity_ <= a.capacity_) the excess cells are destroyed and the same
index-wise action trace is performed. -/
theorem copy_assignment_reconciles :
    (∀ (a b : cvector_impl T N), cvWF a → cvWF b →
      (cvOnCopy a b).1.n = b.n ∧
      (∀ i, i < b.n → (cvOnCopy a b).1.cell i = b.cell i) ∧
      (∀ i, b.n ≤ i → i < a.n → (cvOnCopy a b).1.cell i = none) ∧
      (cvOnCopy a b).2 =
        (List.range (min a.n b.n)).map CellOp.assign
          ++ (List.range' (min a.n b.n) (b.n - min a.n b.n)).map CellOp.construct
          ++ (List.range' b.n (a.n - b.n)).map CellOp.destroy) ∧
    (∀ (a b : cvector_impl T N), (cvCopyAssignTriv a b).n = b.n ∧
      ∀ i, (cvCopyAssignTriv a b).cell i = b.cell i) ∧
    (∀ (a b : dvector T) (h : Heap T), dvWF h a → dvWF h b →
      (a.storage_ = none ∨ a.storage_ ≠ b.storage_) →
      (dvCopyAssign a b h).1.size_ = b.size_ ∧
      (∀ i, i < b.size_ →
        readCell (dvCopyAssign a b h).2.1 (dvCopyAssign a b h).1 i = readCell h b i) ∧
      (b.capacity_ ≤ a.capacity_ →
        (∀ i, b.size_ ≤ i → i < a.size_ →
          readCell (dvCopyAssign a b h).2.1 (dvCopyAssign a b h).1 i = none) ∧
        (dvCopyAssign a b h).2.2 =
          (List.range (min a.size_ b.size_)).map CellOp.assign
            ++ (List.range' (min a.size_ b.size_) (b.size_ - min a.size_ b.size_)).map
                 CellOp.construct
            ++ (List.range' b.size_ (a.size_ - b.size_)).map CellOp.destroy)) := by
  refine ⟨fun a b ha hb => ?_, fun a b => ⟨rfl, fun i => rfl⟩,
    fun a b h hwfa hwfb hsep => ?_⟩
  · obtain ⟨e1, e2, e3, _⟩ := cvOnCopy_spec a b ha hb
    exact ⟨e1, e2, e3, rfl⟩
  · have hne : ∀ bid, a.storage_ = some bid → b.storage_ ≠ some bid := by
      intro bid hbid hcontra
      rcases hsep with hnone | hdiff
      · rw [hbid] at hnone
        exact absurd hnone (by simp)
      · rw [hbid, hcontra] at hdiff
        exact hdiff rfl
    obtain ⟨hvals, hreuse⟩ := dvCopyAssign_vals a b h hwfa hwfb hne
    obtain ⟨_, hsz⟩ := dvCopyAssign_WF a b h hwfa hwfb
    exact ⟨hsz, hvals, fun hba => hreuse (by omega)⟩

/-- C1 witness: assigning the two-element source into the three-element
target, for both sequence types (the spec's 3-into-2 and 2-into-3 scenarios
are both visible: size becomes 2 and the excess cell is destroyed). -/
theorem copy_assignment_reconciles_witness :
    (cvWF exCvA ∧ cvWF exCvB ∧
      ((cvOnCopy exCvA exCvB).1.n = exCvB.n ∧
        (∀ i, i < exCvB.n → (cvOnCopy exCvA exCvB).1.cell i = exCvB.cell i) ∧
        (∀ i, exCvB.n ≤ i → i < exCvA.n → (cvOnCopy exCvA exCvB).1.cell i = none) ∧
        (cvOnCopy exCvA exCvB).2 =
          (List.range (min exCvA.n exCvB.n)).map CellOp.assign
            ++ (List.range' (min exCvA.n exCvB.n)
                 (exCvB.n - min exCvA.n exCvB.n)).map CellOp.construct
            ++ (List.range' exCvB.n (exCvA.n - exCvB.n)).map CellOp.destroy)) ∧
    (dvWF exHeap exDvA ∧ dvWF exHeap exDvB ∧
      (exDvA.storage_ = none ∨ exDvA.storage_ ≠ exDvB.storage_) ∧
      ((dvCopyAssign exDvA exDvB exHeap).1.size_ = exDvB.size_ ∧
        (∀ i, i < exDvB.size_ →
          readCell (dvCopyAssign exDvA exDvB exHeap).2.1
            (dvCopyAssign exDvA exDvB exHeap).1 i = readCell exHeap exDvB i) ∧
        (exDvB.capacity_ ≤ exDvA.capacity_ →
          (∀ i, exDvB.size_ ≤ i → i < exDvA.size_ →
            readCell (dvCopyAssign exDvA exDvB exHeap).2.1
              (dvCopyAssign exDvA exDvB exHeap).1 i = none) ∧
          (dvCopyAssign exDvA exDvB exHeap).2.2 =
            (List.range (min exDvA.size_ exDvB.size_)).map CellOp.assign
              ++ (List.range' (min exDvA.size_ exDvB.size_)
                   (exDvB.size_ - min exDvA.size_ exDvB.size_)).map CellOp.construct
              ++ (List.range' exDvB.size_
                   (exDvA.size_ - exDvB.size_)).map CellOp.destroy))) :=
  ⟨⟨by decide, by decide,
    (copy_assignment_reconciles (T := Int) (N := 3)).1 exCvA exCvB (by decide) (by decide)⟩,
   by decide, by decide, by decide,
   (copy_assignment_reconciles (T := Int) (N := 3)).2.2 exDvA exDvB exHeap
     (by decide) (by decide) (by decide)⟩

/-- C7: for the dynamic sequence, push_back at size == capacity first grows
the capacity to exactly max(2*capacity, 1), then constructs the new element
at index size and increments size, preserving all previously live element
values; reserve(n) reallocates to capacity exactly n when n > capacity
(preserving size and all element values) and does nothing at all when
n <= capacity. -/
theorem dvector_growth_reserve :
    (∀ (v : dvector T) (t : T) (h : Heap T), dvWF h v → v.size_ = v.capacity_ →
      (dvPushBack v t h).1.capacity_ = max (2 * v.capacity_) 1 ∧
      (dvPushBack v t h).1.size_ = v.size_ + 1 ∧
      readCell (dvPushBack v t h).2 (dvPushBack v t h).1 v.size_ = some t ∧
      (∀ i, i < v.size_ →
        readCell (dvPushBack v t h).2 (dvPushBack v t h).1 i = readCell h v i)) ∧
    (∀ (v : dvector T) (n : Nat) (h : Heap T), dvWF h v → v.capacity_ < n →
      (dvReserve v n h).1.capacity_ = n ∧ (dvReserve v n h).1.size_ = v.size_ ∧
      (∀ i, i < v.size_ →
        readCell (dvReserve v n h).2 (dvReserve v n h).1 i = readCell h v i)) ∧
    (∀ (v : dvector T) (n : Nat) (h : Heap T), n ≤ v.capacity_ →
      dvReserve v n h = (v, h)) := by
  refine ⟨fun v t h hwf hfull => ?_, fun v n h hwf hlt => ?_,
    fun v n h hle => dvReserve_eq_neg v n h (by omega)⟩
  · obtain ⟨_, hsz, hcap, hnew, hpres⟩ := dvPushBack_spec v t h hwf
    rw [if_pos hfull] at hcap
    exact ⟨hcap, hsz, hnew, hpres⟩
  · obtain ⟨_, hsz, hcap, hpres⟩ := dvReserve_spec v n h hwf
    refine ⟨by rw [hcap]; omega, hsz, hpres⟩

/-- C7 witness: pushing 7 onto a full one-element dynamic sequence doubles
the capacity to 2; reserving 4 on it reallocates to capacity exactly 4;
reserving 1 on it is an exact no-op. -/
theorem dvector_growth_reserve_witness :
    (dvWF exHeapSmall exDvSmall ∧ exDvSmall.size_ = exDvSmall.capacity_ ∧
      ((dvPushBack exDvSmall 7 exHeapSmall).1.capacity_ =
          max (2 * exDvSmall.capacity_) 1 ∧
        (dvPushBack exDvSmall 7 exHeapSmall).1.size_ = exDvSmall.size_ + 1 ∧
        readCell (dvPushBack exDvSmall 7 exHeapSmall).2
          (dvPushBack exDvSmall 7 exHeapSmall).1 exDvSmall.size_ = some 7 ∧
        (∀ i, i < exDvSmall.size_ →
          readCell (dvPushBack exDvSmall 7 exHeapSmall).2
            (dvPushBack exDvSmall 7 exHeapSmall).1 i = readCell exHeapSmall exDvSmall i))) ∧
    (exDvSmall.capacity_ < 4 ∧
      ((dvReserve exDvSmall 4 exHeapSmall).1.capacity_ = 4 ∧
        (dvReserve exDvSmall 4 exHeapSmall).1.size_ = exDvSmall.size_ ∧
        (∀ i, i < exDvSmall.size_ →
          readCell (dvReserve exDvSmall 4 exHeapSmall).2
            (dvReserve exDvSmall 4 exHeapSmall).1 i = readCell exHeapSmall exDvSmall i))) ∧
    (1 ≤ exDvSmall.capacity_ ∧ dvReserve exDvSmall 1 exHeapSmall = (exDvSmall, exHeapSmall)) :=
  ⟨⟨by decide, by decide,
    dvector_growth_reserve.1 exDvSmall 7 exHeapSmall (by decide) (by decide)⟩,
   ⟨by decide, dvector_growth_reserve.2.1 exDvSmall 4 exHeapSmall (by decide) (by decide)⟩,
   ⟨by decide, dvector_growth_reserve.2.2 exDvSmall 1 exHeapSmall (by decide)⟩⟩

/-- C8: for both sequence types, push_back of v immediately followed by
pop_back returns exactly the pushed value, restores the prior size, and
leaves every previously live element value unchanged (for the fixed
sequence this needs room for one more element, n < N; the dynamic sequence
always has room because push_back grows). -/
theorem push_pop_roundtrip :
    (∀ (v : cvector_impl T N) (t : T), cvWF v → v.n < N →
      ∃ v1 v2, cvPushBack v t = .ok (v1, t) ∧ cvPopBack v1 = .ok (some t, v2) ∧
        v2.n = v.n ∧ (∀ i, i < v.n → v2.cell i = v.cell i)) ∧
    (∀ (v : dvector T) (t : T) (h : Heap T), dvWF h v →
      ∃ r, dvPopBack (dvPushBack v t h).1 (dvPushBack v t h).2 = .ok (some t, r) ∧
        r.size_ = v.size_ ∧
        (∀ i, i < v.size_ →
          readCell (dvPushBack v t h).2 r i = readCell h v i)) := by
  constructor
  · intro v t hwf hlt
    obtain ⟨hL, hN, _⟩ := hwf
    refine ⟨⟨v.storage.set v.n (some t), v.n + 1⟩, ⟨v.storage.set v.n (some t), v.n⟩,
      ?_, ?_, rfl, fun i hi => ?_⟩
    · unfold cvPushBack
      rw [if_pos hlt]
    · unfold cvPopBack
      rw [if_pos (Nat.succ_pos v.n)]
      rw [cell_mk, Nat.add_sub_cancel,
        getD_set_self _ _ _ (by rw [hL]; exact hlt)]
    · rw [cell_mk]
      exact getD_set_ne _ _ _ _ (by omega)
  · intro v t h hwf
    obtain ⟨hwf', hsz, _, hnew, hpres⟩ := dvPushBack_spec v t h hwf
    have hpos : 0 < (dvPushBack v t h).1.size_ := by
      rw [hsz]
      omega
    obtain ⟨hpop, _⟩ := dvPopBack_spec (dvPushBack v t h).1 (dvPushBack v t h).2 hwf' hpos
    have hidx : (dvPushBack v t h).1.size_ - 1 = v.size_ := by omega
    refine ⟨⟨(dvPushBack v t h).1.capacity_, (dvPushBack v t h).1.size_ - 1,
      (dvPushBack v t h).1.storage_⟩, ?_, by dsimp only; omega, fun i hi => ?_⟩
    · rw [hpop, hidx, hnew]
    · exact hpres i hi

/-- C8 witness: pushing 9 onto a one-element fixed sequence and popping
returns 9 and restores the state; pushing 7 onto a full one-element dynamic
sequence and popping returns 7 and restores size 1 with the element 5
unchanged. -/
theorem push_pop_roundtrip_witness :
    (cvWF exCv1 ∧ exCv1.n < 3 ∧
      (∃ v1 v2, cvPushBack exCv1 (9 : Int) = .ok (v1, 9) ∧
        cvPopBack v1 = .ok (some 9, v2) ∧ v2.n = exCv1.n ∧
        (∀ i, i < exCv1.n → v2.cell i = exCv1.cell i))) ∧
    (dvWF exHeapSmall exDvSmall ∧
      (∃ r, dvPopBack (dvPushBack exDvSmall (7 : Int) exHeapSmall).1
          (dvPushBack exDvSmall 7 exHeapSmall).2 = .ok (some 7, r) ∧
        r.size_ = exDvSmall.size_ ∧
        (∀ i, i < exDvSmall.size_ →
          readCell (dvPushBack exDvSmall 7 exHeapSmall).2 r i =
            readCell exHeapSmall exDvSmall i))) :=
  ⟨⟨by decide, by decide,
    (push_pop_roundtrip (T := Int) (N := 3)).1 exCv1 9 (by decide) (by decide)⟩,
   by decide,
   (push_pop_roundtrip (T := Int) (N := 3)).2 exDvSmall 7 exHeapSmall (by decide)⟩

/-- C9: a copy is deep.  For the dynamic sequence this is an aliasing
property, so it is stated over the explicit heap: after copy-constructing
(or copy-assigning into) a new dvector from a, running any sequence of
mutations (push_back, pop_back, resize, element writes) on the copy leaves
every element value of a - read through a's own storage block - unchanged
(a's size is a field of the untouched value a, so it is unchanged by
construction).  The copy constructor allocates a fresh block and the
mutations only ever write to the copy's block or to freshly allocated
blocks, never to a's.  For the fixed sequence, whose storage is inline (a
pure value in the model, so no aliasing is representable at all), the copy
constructor duplicates the live cells value by value. -/
theorem deep_copy_frame [Inhabited T] :
    (∀ (a : dvector T) (h : Heap T) (ms : List (dvMut T)), dvWF h a →
      (∀ i, readCell (dvApplyMuts ms (dvCopyCtor a h).1 (dvCopyCtor a h).2).2 a i =
        readCell h a i) ∧
      dvElems (dvApplyMuts ms (dvCopyCtor a h).1 (dvCopyCtor a h).2).2 a = dvElems h a) ∧
    (∀ (c a : dvector T) (h : Heap T) (ms : List (dvMut T)), dvWF h a →
      (c.storage_ = none ∨ c.storage_ ≠ a.storage_) →
      ∀ i, readCell (dvApplyMuts ms (dvCopyAssign c a h).1
        (dvCopyAssign c a h).2.1).2 a i = readCell h a i) ∧
    (∀ (a : cvector_impl T N), cvWF a → (cvCopyCtor a).n = a.n ∧
      ∀ i, i < a.n → (cvCopyCtor a).cell i = a.cell i) := by
  refine ⟨fun a h ms hwf => ?_, fun c a h ms hwfa hsep => ?_, fun a ha => ?_⟩
  · have hread : ∀ i,
        readCell (dvApplyMuts ms (dvCopyCtor a h).1 (dvCopyCtor a h).2).2 a i =
          readCell h a i := by
      intro i
      cases hs : a.storage_ with
      | none => rw [readCell_storage_none _ a hs, readCell_storage_none _ a hs]
      | some bid =>
        have hbid := (dvWF_block h a hwf bid hs).1
        have hcf := dvCopyCtor_frame a h bid hbid
        have hmf := dvApplyMuts_frame ms (dvCopyCtor a h).1 (dvCopyCtor a h).2 bid
          (Nat.lt_of_lt_of_le hbid hcf.2.1) hcf.2.2
        rw [readCell_some _ a bid hs, readCell_some h a bid hs, hmf.1, hcf.1]
    refine ⟨hread, ?_⟩
    unfold dvElems
    rw [show readCell (dvApplyMuts ms (dvCopyCtor a h).1 (dvCopyCtor a h).2).2 a =
      readCell h a from funext hread]
  · intro i
    cases hs : a.storage_ with
    | none => rw [readCell_storage_none _ a hs, readCell_storage_none _ a hs]
    | some bid =>
      have hbid := (dvWF_block h a hwfa bid hs).1
      have hcne : c.storage_ ≠ some bid := by
        rcases hsep with hnone | hdiff
        · rw [hnone]
          simp
        · intro hceq
          exact hdiff (by rw [hceq, hs])
      have hcf := dvCopyAssign_frame c a h bid hbid hcne
      have hmf := dvApplyMuts_frame ms (dvCopyAssign c a h).1 (dvCopyAssign c a h).2.1 bid
        (Nat.lt_of_lt_of_le hbid hcf.2.1) hcf.2.2
      rw [readCell_some _ a bid hs, readCell_some h a bid hs, hmf.1, hcf.1]
  · have hspec := cvOnCopy_spec cvDefault a cvDefault_WF ha
    exact ⟨hspec.1, fun i hi => hspec.2.1 i hi⟩

/-- C9 witness: copy-construct from the three-element dynamic sequence,
then run a push, a pop, a resize and an element write on the copy - every
element of the original, and its whole live-prefix observation, is
unchanged; likewise after copy-assigning the original into another
sequence; and the fixed-sequence copy duplicates the live cells. -/
theorem deep_copy_frame_witness :
    (dvWF exHeap exDvA ∧
      ((∀ i, readCell (dvApplyMuts [dvMut.push 7, dvMut.pop, dvMut.resize 5,
          dvMut.write 0 9] (dvCopyCtor exDvA exHeap).1 (dvCopyCtor exDvA exHeap).2).2
          exDvA i = readCell exHeap exDvA i) ∧
        dvElems (dvApplyMuts [dvMut.push 7, dvMut.pop, dvMut.resize 5, dvMut.write 0 9]
          (dvCopyCtor exDvA exHeap).1 (dvCopyCtor exDvA exHeap).2).2 exDvA =
          dvElems exHeap exDvA)) ∧
    (dvWF exHeap exDvA ∧ (exDvB.storage_ = none ∨ exDvB.storage_ ≠ exDvA.storage_) ∧
      (∀ i, readCell (dvApplyMuts [dvMut.push 7, dvMut.pop]
          (dvCopyAssign exDvB exDvA exHeap).1
          (dvCopyAssign exDvB exDvA exHeap).2.1).2 exDvA i = readCell exHeap exDvA i)) ∧
    (cvWF exCvA ∧ ((cvCopyCtor exCvA).n = exCvA.n ∧
      ∀ i, i < exCvA.n → (cvCopyCtor exCvA).cell i = exCvA.cell i)) :=
  ⟨⟨by decide,
    (deep_copy_frame (T := Int) (N := 3)).1 exDvA exHeap
      [dvMut.push 7, dvMut.pop, dvMut.resize 5, dvMut.write 0 9] (by decide)⟩,
   ⟨by decide, by decide,
    (deep_copy_frame (T := Int) (N := 3)).2.1 exDvB exDvA exHeap
      [dvMut.push 7, dvMut.pop] (by decide) (by decide)⟩,
   by decide,
   (deep_copy_frame (T := Int) (N := 3)).2.2 exCvA (by decide)⟩

/-- C10: every dvector operation - default, sized and in_place construction,
copy and move construction, copy and move assignment, reserve,
shrink_to_fit, resize, clear, push_back/emplace_back and pop_back -
preserves the representation invariant: size_ <= capacity_ (sizes are
modelled as Nat, capturing 0 <= size), the storage pointer is null exactly
when capacity_ is 0, and the allocated block has exactly capacity_ cells.
In particular the default-constructed and moved-from states (capacity 0,
nullptr) hold no allocation.  The destructor is clear() followed by
releasing the buffer, so its effect on the heap is covered by the clear
case; the destroyed object itself no longer exists. -/
theorem dvector_invariant_preservation [Inhabited T] :
    (∀ h : Heap T, dvWF h dvDefault) ∧
    (∀ (n : Nat) (h : Heap T), dvWF (dvMkSized (T := T) n h).2 (dvMkSized n h).1) ∧
    (∀ (ts : List T) (h : Heap T), dvWF (dvOfList ts h).2 (dvOfList ts h).1) ∧
    (∀ (b : dvector T) (h : Heap T), dvWF h b →
      dvWF (dvCopyCtor b h).2 (dvCopyCtor b h).1) ∧
    (∀ (b : dvector T) (h : Heap T), dvWF h b →
      dvWF h (dvMoveCtor b).1 ∧ dvWF h (dvMoveCtor b).2) ∧
    (∀ (a b : dvector T) (h : Heap T), dvWF h a → dvWF h b →
      dvWF (dvCopyAssign a b h).2.1 (dvCopyAssign a b h).1) ∧
    (∀ (a b : dvector T) (h : Heap T), dvWF h b →
      dvWF (dvMoveAssign a b h).2.2 (dvMoveAssign a b h).1 ∧
      dvWF (dvMoveAssign a b h).2.2 (dvMoveAssign a b h).2.1) ∧
    (∀ (v : dvector T) (n : Nat) (h : Heap T), dvWF h v →
      dvWF (dvReserve v n h).2 (dvReserve v n h).1) ∧
    (∀ (v : dvector T) (h : Heap T), dvWF h v →
      dvWF (dvShrinkToFit v h).2 (dvShrinkToFit v h).1) ∧
    (∀ (v : dvector T) (n : Nat) (h : Heap T), dvWF h v →
      dvWF (dvResize v n h).2 (dvResize v n h).1) ∧
    (∀ (v : dvector T) (h : Heap T), dvWF h v → dvWF (dvClear v h).2 (dvClear v h).1) ∧
    (∀ (v : dvector T) (t : T) (h : Heap T), dvWF h v →
      dvWF (dvPushBack v t h).2 (dvPushBack v t h).1) ∧
    (∀ (v : dvector T) (h : Heap T), dvWF h v → 0 < v.size_ →
      ∃ x r, dvPopBack v h = .ok (x, r) ∧ dvWF h r) := by
  refine ⟨dvDefault_WF, fun n h => (dvMkSized_spec n h).1, dvOfList_WF,
    fun b h hwf => (dvCopyCtor_spec b h hwf).1,
    fun b h hwf => ⟨hwf, dvDefault_WF h⟩,
    fun a b h ha hb => (dvCopyAssign_WF a b h ha hb).1,
    fun a b h hb => ⟨(dvMoveAssign_WF a b h hb).2.2.1, (dvMoveAssign_WF a b h hb).2.2.2⟩,
    fun v n h hwf => (dvReserve_spec v n h hwf).1,
    fun v h hwf => (dvShrinkToFit_spec v h hwf).1,
    fun v n h hwf => (dvResize_WF v n h hwf).1,
    fun v h hwf => (dvClear_spec v h hwf).2,
    fun v t h hwf => (dvPushBack_spec v t h hwf).1,
    fun v h hwf hpos => ⟨_, _, (dvPopBack_spec v h hwf hpos).1,
      (dvPopBack_spec v h hwf hpos).2⟩⟩

/-- C10 witness: the invariant instances checked at concrete states - the
default state in the empty heap, a sized construction, and a push_back on a
well-formed full one-element sequence. -/
theorem dvector_invariant_preservation_witness :
    dvWF ([] : Heap Int) dvDefault ∧
    dvWF (dvMkSized (T := Int) 2 []).2 (dvMkSized (T := Int) 2 []).1 ∧
    (dvWF exHeapSmall exDvSmall ∧
      dvWF (dvPushBack exDvSmall (7 : Int) exHeapSmall).2
        (dvPushBack exDvSmall 7 exHeapSmall).1) ∧
    (dvWF exHeap exDvA ∧ 0 < exDvA.size_ ∧
      ∃ x r, dvPopBack exDvA exHeap = .ok (x, r) ∧ dvWF exHeap r) :=
  ⟨(dvector_invariant_preservation (T := Int)).1 [],
   (dvector_invariant_preservation (T := Int)).2.1 2 [],
   ⟨by decide,
    (dvector_invariant_preservation (T := Int)).2.2.2.2.2.2.2.2.2.2.2.1 exDvSmall 7
      exHeapSmall (by decide)⟩,
   by decide, by decide,
   (dvector_invariant_preservation (T := Int)).2.2.2.2.2.2.2.2.2.2.2.2 exDvA exHeap
     (by decide) (by decide)⟩

end ce
